import Mathlib

/-!
The per-connection concurrency protocol of go-websocket-barrage.

A shallow embedding of `server-标准实现版.go` (the queue based connection with its
read pump, write pump, heartbeat and echo loop) and of `server-简单实现版.go`
(the plain echo handler).

Conventions of the embedding

* A buffered Go channel is its FIFO contents (a list, head = oldest element)
  together with its capacity.  A send can proceed iff the buffer is not full, a
  receive can proceed iff the buffer is not empty (`inChan` and `outChan` are
  never closed).
* `closeChan` is unbuffered and never sent on, so a receive from it can proceed
  iff the channel has been closed; it is modelled by that boolean.
* A `select` blocks while no case can proceed and otherwise runs one of the cases
  that can proceed, chosen by the runtime.  A select function of the model takes
  the case picked by the runtime (`SelectCase`) and returns `none` when that case
  cannot proceed; the select blocks iff it returns `none` for every case.
* The socket (`*websocket.Conn`) is the environment: the result of every
  `ReadMessage` / `WriteMessage` is chosen by the environment, and every call
  made on the socket is recorded in the trace of the execution.
* The channel send of `wsWrite` (line 198) and its `return nil` (line 203) are
  two steps: another goroutine can run between them, so the order in which
  `wsWrite` calls return need not be the order in which they queued.
* Goroutines are threads with a program counter (`Pc`), named after the source
  line they are about to execute, and are identified by their index in the
  thread table (`tid`).  One step of the system runs one atomic action
  of one thread.
-/

namespace Barrage

/-- A byte slice (`[]byte`). -/
abbrev Bytes := List UInt8

/-- The bytes of an ASCII string literal, as in `[]byte("...")`. -/
def bytes (s : String) : Bytes := s.toList.map (fun ch => UInt8.ofNat ch.toNat)

/-- The constant `websocket.TextMessage` of gorilla/websocket. -/
def TextMessage : Int := 1

/-- The constant `websocket.BinaryMessage` of gorilla/websocket. -/
def BinaryMessage : Int := 2

/-- Lines 75-78: `type wsMessage struct { messageType int; data []byte }`. -/
structure wsMessage where
  messageType : Int
  data : Bytes
deriving DecidableEq, Repr

/-- Lines 81-89: `type wsConnection struct`.  The socket is the environment (see
the header); `mutex` records which goroutine holds the lock, `closeChan` whether
`close(closeChan)` has been executed. -/
structure wsConnection where
  inChan : List wsMessage
  inCap : Nat
  outChan : List wsMessage
  outCap : Nat
  mutex : Option Nat
  isClosed : Bool
  closeChan : Bool
deriving DecidableEq, Repr

/-- The case of a two-case `select` that the runtime picks: the channel
communication listed first, or `<-wsConn.closeChan`. -/
inductive SelectCase where
  | comm
  | closed
deriving DecidableEq, Repr

/-- The error value `fmt.Errorf("websocket closed")`. -/
def errClosed : String := "websocket closed"

/-- Lines 186-194: `wsRead`.  Result: the pair `(msg, err)` returned (`none` is
Go's `nil`) and the connection afterwards. -/
def wsRead (c : wsConnection) (pick : SelectCase) :
    Option ((Option wsMessage × Option String) × wsConnection) :=
  match pick with
  | .comm =>
    match c.inChan with
    | [] => none
    | msg :: rest => some ((some msg, none), { c with inChan := rest })
  | .closed => if c.closeChan then some ((none, some errClosed), c) else none

/-- Lines 196-204: `wsWrite`.  Result: the `error` returned (`none` is `nil`) and
the connection afterwards. -/
def wsWrite (c : wsConnection) (messageType : Int) (data : Bytes) (pick : SelectCase) :
    Option (Option String × wsConnection) :=
  match pick with
  | .comm =>
    if c.outChan.length < c.outCap then
      some (none, { c with outChan := c.outChan ++ [⟨messageType, data⟩] })
    else none
  | .closed => if c.closeChan then some (some errClosed, c) else none

/-- Lines 116-126: the `select` of `wsWriteLoop`.  Result: `some msg` when a
message was taken from `outChan` (it is then written to the socket), `none` for
`goto closed`; and the connection afterwards. -/
def wsWriteLoopSelect (c : wsConnection) (pick : SelectCase) :
    Option (Option wsMessage × wsConnection) :=
  match pick with
  | .comm =>
    match c.outChan with
    | [] => none
    | msg :: rest => some (some msg, { c with outChan := rest })
  | .closed => if c.closeChan then some (none, c) else none

/-- Lines 103-107: the `select` of `wsReadLoop`.  Result: `true` when `req` was
put on `inChan`, `false` for `goto closed`; and the connection afterwards. -/
def wsReadLoopSelect (c : wsConnection) (req : wsMessage) (pick : SelectCase) :
    Option (Bool × wsConnection) :=
  match pick with
  | .comm =>
    if c.inChan.length < c.inCap then some (true, { c with inChan := c.inChan ++ [req] })
    else none
  | .closed => if c.closeChan then some (false, c) else none

/-- A call of the connection API made by a goroutine other than the four that
`wsHandler` starts. -/
inductive Call where
  | close
  | write (messageType : Int) (data : Bytes)
  | read
deriving DecidableEq, Repr

/-- Program counter of a goroutine.  The `wsClose_*` counters carry the calls the
goroutine makes after `wsClose` returns (`[]` for the pumps and the heartbeat,
which end after it). -/
inductive Pc where
  /-- Line 135: `procLoop` is about to start the heartbeat goroutine. -/
  | procLoop_go
  /-- Line 149: `msg, err := wsConn.wsRead()`. -/
  | procLoop_wsRead
  /-- Line 156: `err = wsConn.wsWrite(msg.messageType, msg.data)`, at the select
  of `wsWrite`. -/
  | procLoop_wsWrite (msg : wsMessage)
  /-- Line 156, inside `wsWrite` after its channel send: `return nil` (line 203). -/
  | procLoop_wsWrite_return (msg : wsMessage)
  /-- Line 137: `time.Sleep(2 * time.Second)`. -/
  | heartbeat_sleep
  /-- Line 138: `wsConn.wsWrite(websocket.TextMessage, []byte("heartbeat from server"))`,
  at the select of `wsWrite`. -/
  | heartbeat_wsWrite
  /-- Line 138, inside `wsWrite` after its channel send: `return nil` (line 203). -/
  | heartbeat_wsWrite_return
  /-- Line 94: `wsConn.wsSocket.ReadMessage()`. -/
  | wsReadLoop_read
  /-- Line 103: the select that puts `req` on `inChan`. -/
  | wsReadLoop_select (req : wsMessage)
  /-- Line 116: the select that takes a message from `outChan`. -/
  | wsWriteLoop_select
  /-- Line 120: `wsConn.wsSocket.WriteMessage(msg.messageType, msg.data)`. -/
  | wsWriteLoop_write (msg : wsMessage)
  /-- Line 207: `wsConn.wsSocket.Close()`. -/
  | wsClose_socket (k : List Call)
  /-- Line 209: `wsConn.mutex.Lock()`. -/
  | wsClose_lock (k : List Call)
  /-- Line 211: `if !wsConn.isClosed`. -/
  | wsClose_test (k : List Call)
  /-- Line 212: `wsConn.isClosed = true`. -/
  | wsClose_set (k : List Call)
  /-- Line 213: `close(wsConn.closeChan)`. -/
  | wsClose_close (k : List Call)
  /-- Line 210, run at line 215: the deferred `wsConn.mutex.Unlock()`. -/
  | wsClose_unlock (k : List Call)
  /-- Outside the API with the calls `k` still to make; `caller []` has returned. -/
  | caller (k : List Call)
  /-- Inside a call `wsWrite(messageType, data)` made through the API, after its
  channel send: `return nil` (line 203), with the calls `k` still to make. -/
  | caller_wsWrite_return (messageType : Int) (data : Bytes) (k : List Call)
deriving DecidableEq, Repr

/-- What an execution lets one observe, in the order it happened. -/
inductive Event where
  /-- `ReadMessage` returned `frame` (`none`: an error). -/
  | sockRead (tid : Nat) (frame : Option wsMessage)
  /-- `WriteMessage(msg.messageType, msg.data)` was called and returned `nil` iff `ok`. -/
  | sockWrite (tid : Nat) (msg : wsMessage) (ok : Bool)
  /-- The socket's `Close()` was called; `holdsMutex`: the caller held `mutex`. -/
  | sockClose (tid : Nat) (holdsMutex : Bool)
  | lock (tid : Nat)
  | unlock (tid : Nat)
  /-- The statement `close(wsConn.closeChan)` was executed on an open channel. -/
  | chanClose (tid : Nat)
  /-- The statement `close(wsConn.closeChan)` was executed on a closed channel. -/
  | panicCloseOfClosed (tid : Nat)
  | call_wsClose (tid : Nat)
  | ret_wsClose (tid : Nat)
  /-- A call `wsWrite(msg.messageType, msg.data)` executed its channel send
  `wsConn.outChan <- msg` (line 198). -/
  | enqueued (tid : Nat) (msg : wsMessage)
  /-- A call `wsWrite(msg.messageType, msg.data)` returned `nil` (line 203). -/
  | sendOk (tid : Nat) (msg : wsMessage)
  /-- A call `wsWrite(msg.messageType, msg.data)` returned the closed error. -/
  | sendClosed (tid : Nat) (msg : wsMessage)
  /-- A call `wsRead()` returned `msg`. -/
  | recvOk (tid : Nat) (msg : wsMessage)
  /-- A call `wsRead()` returned the closed error. -/
  | recvClosed (tid : Nat)
  | println (tid : Nat) (line : Bytes)
deriving DecidableEq, Repr

/-- What the scheduler, the runtime and the environment decide for one step: the
goroutine that runs, the select case the runtime picks, the result of
`ReadMessage` (`none`: an error) and whether `WriteMessage` succeeds. -/
structure Choice where
  tid : Nat
  pick : SelectCase
  frame : Option wsMessage
  writeOk : Bool
deriving DecidableEq, Repr

/-- The effect of one atomic action of a goroutine. -/
structure Effect where
  conn : wsConnection
  pc : Pc
  events : List Event
  spawn : List Pc
  panicked : Bool
deriving DecidableEq, Repr

/-- The heartbeat payload of line 138. -/
def heartbeatData : Bytes := bytes "heartbeat from server"

/-- One atomic action of goroutine `tid` at program counter `pc`; `none` when the
goroutine is blocked or has ended. -/
def exec (c : wsConnection) (tid : Nat) (ch : Choice) : Pc → Option Effect
  | .procLoop_go => some ⟨c, .procLoop_wsRead, [], [.heartbeat_sleep], false⟩
  | .procLoop_wsRead =>
    match wsRead c ch.pick with
    | none => none
    | some ((_, some _), c1) =>
      some ⟨c1, .caller [], [.recvClosed tid, .println tid (bytes "read fail")], [], false⟩
    | some ((some msg, none), c1) =>
      some ⟨c1, .procLoop_wsWrite msg, [.recvOk tid msg, .println tid msg.data], [], false⟩
    | some ((none, none), _) => none
  | .procLoop_wsWrite msg =>
    match wsWrite c msg.messageType msg.data ch.pick with
    | none => none
    | some (none, c1) =>
      some ⟨c1, .procLoop_wsWrite_return msg, [.enqueued tid ⟨msg.messageType, msg.data⟩],
        [], false⟩
    | some (some _, c1) =>
      some ⟨c1, .caller [], [.sendClosed tid ⟨msg.messageType, msg.data⟩,
        .println tid (bytes "write fail")], [], false⟩
  | .procLoop_wsWrite_return msg =>
    some ⟨c, .procLoop_wsRead, [.sendOk tid ⟨msg.messageType, msg.data⟩], [], false⟩
  | .heartbeat_sleep => some ⟨c, .heartbeat_wsWrite, [], [], false⟩
  | .heartbeat_wsWrite =>
    match wsWrite c TextMessage heartbeatData ch.pick with
    | none => none
    | some (none, c1) =>
      some ⟨c1, .heartbeat_wsWrite_return, [.enqueued tid ⟨TextMessage, heartbeatData⟩],
        [], false⟩
    | some (some _, c1) =>
      some ⟨c1, .wsClose_socket [], [.sendClosed tid ⟨TextMessage, heartbeatData⟩,
        .println tid (bytes "heartbeat fail"), .call_wsClose tid], [], false⟩
  | .heartbeat_wsWrite_return =>
    some ⟨c, .heartbeat_sleep, [.sendOk tid ⟨TextMessage, heartbeatData⟩], [], false⟩
  | .wsReadLoop_read =>
    match ch.frame with
    | none => some ⟨c, .wsClose_socket [], [.sockRead tid none, .call_wsClose tid], [], false⟩
    | some req => some ⟨c, .wsReadLoop_select req, [.sockRead tid (some req)], [], false⟩
  | .wsReadLoop_select req =>
    match wsReadLoopSelect c req ch.pick with
    | none => none
    | some (true, c1) => some ⟨c1, .wsReadLoop_read, [], [], false⟩
    | some (false, c1) => some ⟨c1, .caller [], [], [], false⟩
  | .wsWriteLoop_select =>
    match wsWriteLoopSelect c ch.pick with
    | none => none
    | some (some msg, c1) => some ⟨c1, .wsWriteLoop_write msg, [], [], false⟩
    | some (none, c1) => some ⟨c1, .caller [], [], [], false⟩
  | .wsWriteLoop_write msg =>
    if ch.writeOk then
      some ⟨c, .wsWriteLoop_select, [.sockWrite tid ⟨msg.messageType, msg.data⟩ true], [], false⟩
    else
      some ⟨c, .wsClose_socket [], [.sockWrite tid ⟨msg.messageType, msg.data⟩ false,
        .call_wsClose tid], [], false⟩
  | .wsClose_socket k =>
    some ⟨c, .wsClose_lock k, [.sockClose tid (decide (c.mutex = some tid))], [], false⟩
  | .wsClose_lock k =>
    if c.mutex = none then
      some ⟨{ c with mutex := some tid }, .wsClose_test k, [.lock tid], [], false⟩
    else none
  | .wsClose_test k =>
    if !c.isClosed then some ⟨c, .wsClose_set k, [], [], false⟩
    else some ⟨c, .wsClose_unlock k, [], [], false⟩
  | .wsClose_set k => some ⟨{ c with isClosed := true }, .wsClose_close k, [], [], false⟩
  | .wsClose_close k =>
    if c.closeChan then
      some ⟨c, .wsClose_unlock k, [.panicCloseOfClosed tid], [], true⟩
    else
      some ⟨{ c with closeChan := true }, .wsClose_unlock k, [.chanClose tid], [], false⟩
  | .wsClose_unlock k =>
    some ⟨{ c with mutex := none }, .caller k, [.unlock tid, .ret_wsClose tid], [], false⟩
  | .caller [] => none
  | .caller (.close :: k) => some ⟨c, .wsClose_socket k, [.call_wsClose tid], [], false⟩
  | .caller (.write messageType data :: k) =>
    match wsWrite c messageType data ch.pick with
    | none => none
    | some (none, c1) =>
      some ⟨c1, .caller_wsWrite_return messageType data k,
        [.enqueued tid ⟨messageType, data⟩], [], false⟩
    | some (some _, c1) => some ⟨c1, .caller k, [.sendClosed tid ⟨messageType, data⟩], [], false⟩
  | .caller (.read :: k) =>
    match wsRead c ch.pick with
    | none => none
    | some ((_, some _), c1) => some ⟨c1, .caller k, [.recvClosed tid], [], false⟩
    | some ((some msg, none), c1) => some ⟨c1, .caller k, [.recvOk tid msg], [], false⟩
    | some ((none, none), _) => none
  | .caller_wsWrite_return messageType data k =>
    some ⟨c, .caller k, [.sendOk tid ⟨messageType, data⟩], [], false⟩

/-- The connection, its goroutines and the history of the execution. -/
structure System where
  conn : wsConnection
  threads : List Pc
  panicked : Bool
  trace : List Event
deriving DecidableEq, Repr

/-- One step of the system: goroutine `ch.tid` runs one atomic action.  `none`
when that goroutine does not exist, is blocked or has ended, or when the process
has panicked. -/
def step (s : System) (ch : Choice) : Option System :=
  if s.panicked then none
  else
    match s.threads[ch.tid]? with
    | none => none
    | some pc =>
      match exec s.conn ch.tid ch pc with
      | none => none
      | some e =>
        some ⟨e.conn, s.threads.set ch.tid e.pc ++ e.spawn, e.panicked, s.trace ++ e.events⟩

/-- An execution: the steps of a schedule, one after the other. -/
def run (s : System) : List Choice → Option System
  | [] => some s
  | ch :: rest =>
    match step s ch with
    | none => none
    | some s1 => run s1 rest

/-- Lines 170-176: the connection `wsHandler` builds. -/
def newConnection : wsConnection :=
  { inChan := [], inCap := 1000, outChan := [], outCap := 1000,
    mutex := none, isClosed := false, closeChan := false }

/-- Lines 164-184: `wsHandler`.  When the upgrade fails it returns without a
connection; otherwise it builds the connection and starts `procLoop`,
`wsReadLoop` and `wsWriteLoop` (threads 0, 1, 2).  `callers` are the programs of
further goroutines that use the API of the connection. -/
def wsHandler (upgradeFails : Bool) (callers : List (List Call)) : Option System :=
  if upgradeFails then none
  else some ⟨newConnection,
    [.procLoop_go, .wsReadLoop_read, .wsWriteLoop_select] ++ callers.map Pc.caller, false, []⟩

/-- The states a connection built by `wsHandler` can be in. -/
def Reachable (s : System) : Prop :=
  ∃ callers sched s0, wsHandler false callers = some s0 ∧ run s0 sched = some s

/-- What holds of the connection while goroutine `i` is at `pc`. -/
def LocalOk (c : wsConnection) (i : Nat) : Pc → Prop
  | .wsClose_test _ => c.mutex = some i ∧ c.isClosed = c.closeChan
  | .wsClose_set _ => c.mutex = some i ∧ c.isClosed = false ∧ c.closeChan = false
  | .wsClose_close _ => c.mutex = some i ∧ c.isClosed = true ∧ c.closeChan = false
  | .wsClose_unlock _ => c.mutex = some i ∧ c.isClosed = true ∧ c.closeChan = true
  | _ => c.mutex ≠ some i

/-- The fields of the connection that only `wsClose` writes. -/
def SameFlags (c c1 : wsConnection) : Prop :=
  c1.mutex = c.mutex ∧ c1.isClosed = c.isClosed ∧ c1.closeChan = c.closeChan ∧
    c1.inCap = c.inCap ∧ c1.outCap = c.outCap

/-- The goroutine is inside `wsClose`, past the socket's `Close()` of line 207. -/
def Pc.pastSocketClose : Pc → Bool
  | .wsClose_lock _ => true
  | .wsClose_test _ => true
  | .wsClose_set _ => true
  | .wsClose_close _ => true
  | .wsClose_unlock _ => true
  | _ => false

/-- What holds of the connection whoever runs. -/
def GlobalOk (c : wsConnection) (n : Nat) : Prop :=
  (c.mutex = none → c.isClosed = c.closeChan) ∧ (∀ i, c.mutex = some i → i < n)

/-- Mutual exclusion: the state of the lock, of `isClosed` and of `closeChan`
agrees with where every goroutine stands. -/
def MutexOk (s : System) : Prop :=
  s.panicked = false ∧ GlobalOk s.conn s.threads.length ∧
    ∀ i pc, s.threads[i]? = some pc → LocalOk s.conn i pc

/-- The events of the close protocol: taking the lock, closing `closeChan` (on an
open or on a closed channel) and returning from `wsClose`. -/
def Event.isProtocol : Event → Bool
  | .lock _ => true
  | .chanClose _ => true
  | .panicCloseOfClosed _ => true
  | .ret_wsClose _ => true
  | _ => false

/-- The event is an execution of `close(wsConn.closeChan)` on an open channel. -/
def Event.isChanClose : Event → Bool
  | .chanClose _ => true
  | _ => false

/-- How many times `close(wsConn.closeChan)` was executed. -/
def chanCloses (tr : List Event) : Nat := tr.countP Event.isChanClose

/-- The goroutine of a `lock` event. -/
def Event.locker : Event → Option Nat
  | .lock t => some t
  | _ => none

/-- The first goroutine that took the mutex, that is, the first `wsClose` to enter
its critical section. -/
def firstLocker (tr : List Event) : Option Nat := tr.findSome? Event.locker

/-- The history of the close protocol agrees with the state of the connection. -/
def TraceOk (s : System) : Prop :=
  (∀ t, Event.panicCloseOfClosed t ∉ s.trace) ∧
  chanCloses s.trace = (if s.conn.closeChan then 1 else 0) ∧
  (∀ t, Event.ret_wsClose t ∈ s.trace → s.conn.isClosed = true ∧ s.conn.closeChan = true) ∧
  (∀ t, Event.chanClose t ∈ s.trace → firstLocker s.trace = some t) ∧
  (s.conn.closeChan = false → firstLocker s.trace = s.conn.mutex)

/-- The event is a call of the socket's `Close()`. -/
def Event.isSockClose : Event → Bool
  | .sockClose _ _ => true
  | _ => false

/-- The event is a call of `wsClose`. -/
def Event.isCall : Event → Bool
  | .call_wsClose _ => true
  | _ => false

/-- The event is a return from `wsClose`. -/
def Event.isRet : Event → Bool
  | .ret_wsClose _ => true
  | _ => false

/-- How many times the socket's `Close()` was called. -/
def socketCloses (tr : List Event) : Nat := tr.countP Event.isSockClose

/-- How many calls of `wsClose` were made. -/
def closeCalls (tr : List Event) : Nat := tr.countP Event.isCall

/-- How many calls of `wsClose` have returned. -/
def closeReturns (tr : List Event) : Nat := tr.countP Event.isRet

/-- The goroutine has called `wsClose` and is about to run line 207. -/
def Pc.atSocketClose : Pc → Bool
  | .wsClose_socket _ => true
  | _ => false

/-- The socket is closed once per call of `wsClose`, outside the lock. -/
def CountsOk (s : System) : Prop :=
  closeCalls s.trace = socketCloses s.trace + s.threads.countP Pc.atSocketClose ∧
  socketCloses s.trace = closeReturns s.trace + s.threads.countP Pc.pastSocketClose ∧
  ∀ t b, Event.sockClose t b ∈ s.trace → b = false

/-- The goroutine is in the loop of `wsWriteLoop` (lines 115-127). -/
def Pc.isWriteLoop : Pc → Bool
  | .wsWriteLoop_select => true
  | .wsWriteLoop_write _ => true
  | _ => false

/-- The message `wsWriteLoop` has taken from `outChan` and not yet passed to
`WriteMessage`. -/
def Pc.pendingWrite : Pc → List wsMessage
  | .wsWriteLoop_write msg => [msg]
  | _ => []

/-- The message of a `wsWrite` call that returned `nil`. -/
def Event.sent : Event → Option wsMessage
  | .sendOk _ msg => some msg
  | _ => none

/-- The message a `wsWrite` call put on `outChan`. -/
def Event.queued : Event → Option wsMessage
  | .enqueued _ msg => some msg
  | _ => none

/-- The frame of a `WriteMessage` call. -/
def Event.written : Event → Option wsMessage
  | .sockWrite _ msg _ => some msg
  | _ => none

/-- The messages whose `wsWrite` call completed successfully, in the order the
calls completed. -/
def sentMessages (tr : List Event) : List wsMessage := tr.filterMap Event.sent

/-- The messages the `wsWrite` calls put on `outChan`, in the order of their
channel sends (line 198). -/
def enqueuedMessages (tr : List Event) : List wsMessage := tr.filterMap Event.queued

/-- The frames passed to the socket's `WriteMessage`, in call order. -/
def writtenFrames (tr : List Event) : List wsMessage := tr.filterMap Event.written

/-- The message the goroutine `i` holds between `outChan` and the socket. -/
def pendingAt (l : List Pc) (i : Nat) : List wsMessage :=
  match l[i]? with
  | some pc => pc.pendingWrite
  | none => []

/-- Only thread 2 runs `wsWriteLoop`, and what was put on `outChan` is what was
written, then what the write pump holds, then what is queued. -/
def FifoOk (s : System) : Prop :=
  (∀ i pc, s.threads[i]? = some pc → pc.isWriteLoop = true → i = 2) ∧
  2 < s.threads.length ∧
  enqueuedMessages s.trace = writtenFrames s.trace ++ pendingAt s.threads 2 ++ s.conn.outChan

/-- The message goroutine `i` put on `outChan` in a `wsWrite` call. -/
def Event.queuedBy (i : Nat) : Event → Option wsMessage
  | .enqueued t msg => if t = i then some msg else none
  | _ => none

/-- The message of a `wsWrite` call of goroutine `i` that returned `nil`. -/
def Event.sentBy (i : Nat) : Event → Option wsMessage
  | .sendOk t msg => if t = i then some msg else none
  | _ => none

/-- The messages goroutine `i` put on `outChan`, in order. -/
def enqueuedBy (i : Nat) (tr : List Event) : List wsMessage :=
  tr.filterMap (Event.queuedBy i)

/-- The messages of the `wsWrite` calls of goroutine `i` that returned `nil`, in
the order the calls returned. -/
def sentBy (i : Nat) (tr : List Event) : List wsMessage :=
  tr.filterMap (Event.sentBy i)

/-- The message the goroutine has put on `outChan` in a `wsWrite` call that has
not returned yet. -/
def Pc.pendingReturn : Pc → List wsMessage
  | .procLoop_wsWrite_return msg => [⟨msg.messageType, msg.data⟩]
  | .heartbeat_wsWrite_return => [⟨TextMessage, heartbeatData⟩]
  | .caller_wsWrite_return messageType data _ => [⟨messageType, data⟩]
  | _ => []

/-- The message goroutine `i` has queued in a `wsWrite` call that has not
returned yet. -/
def returningAt (l : List Pc) (i : Nat) : List wsMessage :=
  match l[i]? with
  | some pc => pc.pendingReturn
  | none => []

/-- For every goroutine, the `wsWrite` calls that returned `nil` are the ones that
queued a message, in the same order, but for the call that has not returned. -/
def ReturnOk (s : System) : Prop :=
  ∀ i, enqueuedBy i s.trace = sentBy i s.trace ++ returningAt s.threads i

/-- The goroutine is in `procLoop` (lines 133-162). -/
def Pc.isProcLoop : Pc → Bool
  | .procLoop_go => true
  | .procLoop_wsRead => true
  | .procLoop_wsWrite _ => true
  | .procLoop_wsWrite_return _ => true
  | _ => false

/-- The message `procLoop` has obtained from `wsRead` and whose `wsWrite` call has
not completed. -/
def Pc.pendingEcho : Pc → List wsMessage
  | .procLoop_wsWrite msg => [msg]
  | .procLoop_wsWrite_return msg => [msg]
  | _ => []

/-- The message goroutine `i` obtained from a `wsRead` call. -/
def Event.obtainedBy (i : Nat) : Event → Option wsMessage
  | .recvOk t msg => if t = i then some msg else none
  | _ => none

/-- The message goroutine `i` handed to a `wsWrite` call that completed. -/
def Event.handedBy (i : Nat) : Event → Option wsMessage
  | .sendOk t msg => if t = i then some msg else none
  | .sendClosed t msg => if t = i then some msg else none
  | _ => none

/-- The messages goroutine `i` obtained from `wsRead`, in order. -/
def wsReadResults (i : Nat) (tr : List Event) : List wsMessage :=
  tr.filterMap (Event.obtainedBy i)

/-- The messages goroutine `i` handed to `wsWrite`, in order. -/
def wsWriteArgs (i : Nat) (tr : List Event) : List wsMessage :=
  tr.filterMap (Event.handedBy i)

/-- The message goroutine `i` is about to echo. -/
def echoAt (l : List Pc) (i : Nat) : List wsMessage :=
  match l[i]? with
  | some pc => pc.pendingEcho
  | none => []

/-- Thread 0 runs `procLoop`, and what it handed to `wsWrite` is what it obtained
from `wsRead`, but for the message it is about to echo. -/
def EchoOk (s : System) : Prop :=
  (∃ pc, s.threads[0]? = some pc ∧ (pc.isProcLoop = true ∨ pc = .caller [])) ∧
  wsReadResults 0 s.trace = wsWriteArgs 0 s.trace ++ echoAt s.threads 0

/-- The queues of a connection built by `wsHandler` hold at most 1000 messages. -/
def BoundsOk (s : System) : Prop :=
  s.conn.outCap = 1000 ∧ s.conn.inCap = 1000 ∧
  s.conn.outChan.length ≤ s.conn.outCap ∧ s.conn.inChan.length ≤ s.conn.inCap

/-- The goroutine is at a call of `wsWrite` (lines 138 and 156, or a call made
through the API). -/
def Pc.atWsWrite : Pc → Bool
  | .procLoop_wsWrite _ => true
  | .heartbeat_wsWrite => true
  | .caller (.write _ _ :: _) => true
  | _ => false

/-- An execution of a connection built by `wsHandler`, with the goroutines of
`callers` beside the four of the program: the state after the schedule, `none`
when the schedule asks a step of a goroutine that cannot take it. -/
def execution (callers : List (List Call)) (sched : List Choice) : Option System :=
  (wsHandler false callers).bind (fun s0 => run s0 sched)

/-- The state an execution ends in (the state `wsHandler` builds when the schedule
cannot be run). -/
def stateAfter (callers : List (List Call)) (sched : List Choice) : System :=
  (execution callers sched).getD
    ⟨newConnection, [.procLoop_go, .wsReadLoop_read, .wsWriteLoop_select], false, []⟩

/-- Goroutine `t` takes a step: a select takes its channel case and
`WriteMessage` succeeds. -/
def go (t : Nat) : Choice := ⟨t, .comm, none, true⟩

/-- Goroutine `t` takes a step in which a select takes the `<-closeChan` case. -/
def goClosed (t : Nat) : Choice := ⟨t, .closed, none, true⟩

/-- Goroutine `t` takes a step in which `ReadMessage` returns the frame `msg`. -/
def goRead (t : Nat) (msg : wsMessage) : Choice := ⟨t, .comm, some msg, true⟩

/-- Goroutine `t` takes a step in which `WriteMessage` returns an error. -/
def goWriteFails (t : Nat) : Choice := ⟨t, .comm, none, false⟩

/-- The Text frame of the echo scenario; its payload is the seven bytes of the
JSON object with the one member "a" : 1. -/
def frameA1 : wsMessage := ⟨TextMessage, [0x7b, 0x22, 0x61, 0x22, 0x3a, 0x31, 0x7d]⟩

/-- The read pump (thread 1) gets an error from `ReadMessage` and runs `wsClose`
to its end: lines 94, 207, 209, 211, 212, 213 and the deferred unlock. -/
def schedReadError : List Choice := [go 1, go 1, go 1, go 1, go 1, go 1, go 1]

/-- After the read pump closed the connection, `procLoop` (thread 0) starts the
heartbeat (thread 3), which sleeps, gets the closed error from `wsWrite` and runs
`wsClose` to its end: lines 207, 209, 211 and the deferred unlock. -/
def schedTwoCloses : List Choice :=
  schedReadError ++ [go 0, go 3, goClosed 3, go 3, go 3, go 3, go 3]

/-- After the read pump closed the connection, `procLoop` starts the heartbeat,
which sleeps and is then about to call `wsWrite`. -/
def schedCloseThenHeartbeat : List Choice := schedReadError ++ [go 0, go 3]

/-- The read pump reads the frame `frameA1` and queues it, then gets an error from
`ReadMessage` and closes the connection; `procLoop` starts the heartbeat and is
then about to call `wsRead`. -/
def schedFrameThenClose : List Choice :=
  [goRead 1 frameA1, go 1] ++ schedReadError ++ [go 0]

/-- The heartbeat queues its message, the read pump closes the connection, and
the write pump (thread 2) then takes the message from `outChan` and passes it to
`WriteMessage`, which fails on the closed socket. -/
def schedWriteAfterClose : List Choice :=
  [go 0, go 3, go 3, go 3] ++ schedReadError ++ [go 2, goWriteFails 2]

/-- The echo scenario: the read pump reads `frameA1` and queues it, `procLoop`
starts the heartbeat, takes the frame from `wsRead` and hands it to `wsWrite`,
and the write pump writes it to the socket. -/
def schedEcho : List Choice :=
  [goRead 1 frameA1, go 1, go 0, go 0, go 0, go 0, go 2, go 2]

/-- Two `wsWrite` calls that return in the opposite order to their channel sends:
the read pump reads `frameA1` and queues it; `procLoop` starts the heartbeat,
which sleeps and puts its message on `outChan` (line 198) but does not return
yet; `procLoop` takes `frameA1` from `wsRead`, puts it on `outChan` and returns
from `wsWrite`; only then the heartbeat's `wsWrite` returns; the write pump writes
both messages. -/
def schedReorder : List Choice :=
  [goRead 1 frameA1, go 1, go 0, go 3, go 3, go 0, go 0, go 0, go 3, go 2, go 2, go 2, go 2]

/-- The heartbeat puts its message on `outChan` and the write pump writes it to
the socket before the heartbeat's `wsWrite` has returned. -/
def schedWriteBeforeReturn : List Choice := [go 0, go 3, go 3, go 2, go 2]

/-- A goroutine that calls `wsWrite` a thousand times. -/
def fillQueue : List Call := List.replicate 1000 (.write BinaryMessage [])

/-- The goroutine of `fillQueue` (thread 3) makes its thousand calls (a channel
send and a return each) while the write pump does not run. -/
def schedFill : List Choice := List.replicate 2000 (go 3)

/-! ## The simple handler (`server-简单实现版.go`) -/

/-- What the client and the network decide for one run of `wsHandler1`: whether
the upgrade of line 27 fails, the result of the `n`-th `conn.ReadMessage()`
(`none`: an error, otherwise the opcode and the payload), and whether the `n`-th
`conn.WriteMessage` returns `nil`. -/
structure Peer where
  upgradeFails : Bool
  reads : Nat → Option (Int × Bytes)
  writeOk : Nat → Bool

/-- The calls `wsHandler1` makes, with their results. -/
inductive Call1 where
  /-- The call `upgrader.Upgrade(w, req, nil)` (lines 27 and 49). -/
  | upgrade
  /-- The call `conn.ReadMessage()` and what it returned. -/
  | readMessage (result : Option (Int × Bytes))
  /-- The call `conn.WriteMessage(messageType, data)` and whether it returned `nil`. -/
  | writeMessage (messageType : Int) (data : Bytes) (ok : Bool)
  /-- The call `conn.Close()` (line 45). -/
  | close
deriving DecidableEq, Repr

/-- Lines 33-42: the loop of `wsHandler1` from its `n`-th iteration on, until the
`goto ERR`.  `none`: the loop is still running when the fuel is spent. -/
def wsHandler1Loop (p : Peer) : Nat → Nat → Option (List Call1)
  | 0, _ => none
  | fuel + 1, n =>
    match p.reads n with
    | none => some [.readMessage none]
    | some (messageType, data) =>
      if p.writeOk n then
        (wsHandler1Loop p fuel (n + 1)).map
          (fun tr => [.readMessage (some (messageType, data)),
            .writeMessage TextMessage data true] ++ tr)
      else
        some [.readMessage (some (messageType, data)), .writeMessage TextMessage data false]

/-- Lines 19-50: `wsHandler1`.  It returns after a failed upgrade; otherwise it
runs the loop and, at `ERR`, closes the socket and calls `Upgrade` once more. -/
def wsHandler1 (p : Peer) (fuel : Nat) : Option (List Call1) :=
  if p.upgradeFails then some [.upgrade]
  else (wsHandler1Loop p fuel 0).map (fun tr => [.upgrade] ++ tr ++ [.close, .upgrade])

/-- The frame of a successful `ReadMessage`. -/
def Call1.frameRead : Call1 → Option (Int × Bytes)
  | .readMessage (some frame) => some frame
  | _ => none

/-- The opcode and payload passed to a `WriteMessage`. -/
def Call1.reply : Call1 → Option (Int × Bytes)
  | .writeMessage messageType data _ => some (messageType, data)
  | _ => none

/-- The frames `wsHandler1` read successfully, in order. -/
def framesRead (tr : List Call1) : List (Int × Bytes) := tr.filterMap Call1.frameRead

/-- The replies `wsHandler1` wrote, in order. -/
def replies (tr : List Call1) : List (Int × Bytes) := tr.filterMap Call1.reply

/-- The calls of iteration `n` of the loop: the read and, when it succeeded, the
write of the same payload as a Text frame. -/
def echoRound (p : Peer) (n : Nat) : List Call1 :=
  match p.reads n with
  | none => [.readMessage none]
  | some (messageType, data) =>
    [.readMessage (some (messageType, data)), .writeMessage TextMessage data (p.writeOk n)]

/-- The calls of `count` iterations of the loop, from iteration `n` on. -/
def echoRounds (p : Peer) : Nat → Nat → List Call1
  | 0, _ => []
  | count + 1, n => echoRound p n ++ echoRounds p count (n + 1)

/-- A peer that sends one Binary frame and then disconnects. -/
def binaryPeer : Peer :=
  { upgradeFails := false
    reads := fun n => if n = 0 then some (BinaryMessage, [1, 2, 3]) else none
    writeOk := fun _ => true }

/-! ## Lemmas -/

theorem step_some {s s1 : System} {ch : Choice} (h : step s ch = some s1) :
    s.panicked = false ∧ ∃ pc e, s.threads[ch.tid]? = some pc ∧
      exec s.conn ch.tid ch pc = some e ∧
      s1 = ⟨e.conn, s.threads.set ch.tid e.pc ++ e.spawn, e.panicked, s.trace ++ e.events⟩ := by
  unfold step at h
  split at h
  · simp at h
  · rename_i hp
    split at h
    · simp at h
    · rename_i pc hpc
      split at h
      · simp at h
      · rename_i e he
        simp only [Option.some.injEq] at h
        exact ⟨by simpa using hp, pc, e, hpc, he, h.symm⟩

theorem threads_after {l : List Pc} {t : Nat} {pc0 pc1 : Pc} {sp : List Pc}
    (ht : l[t]? = some pc0) {i : Nat} {pc : Pc}
    (h : (l.set t pc1 ++ sp)[i]? = some pc) :
    (i = t ∧ pc = pc1) ∨ (i ≠ t ∧ l[i]? = some pc) ∨ (l.length ≤ i ∧ pc ∈ sp) := by
  have hlt : t < l.length := by
    rcases Nat.lt_or_ge t l.length with h1 | h1
    · exact h1
    · rw [List.getElem?_eq_none h1] at ht; simp at ht
  rcases Nat.lt_or_ge i l.length with hi | hi
  · rw [List.getElem?_append_left (by simpa using hi)] at h
    by_cases hit : i = t
    · subst hit
      rw [List.getElem?_set_self hi] at h
      left; exact ⟨rfl, by simpa using h.symm⟩
    · rw [List.getElem?_set_ne (fun h1 => hit h1.symm)] at h
      right; left; exact ⟨hit, h⟩
  · right; right
    refine ⟨hi, ?_⟩
    rw [List.getElem?_append_right (by simpa using hi)] at h
    exact List.getElem?_mem h

theorem localOk_other {c c1 : wsConnection} {t i : Nat} {pc1 : Pc} (hne : i ≠ t)
    (h : LocalOk c i pc1)
    (hc : (c1.mutex = c.mutex ∧ c1.isClosed = c.isClosed ∧ c1.closeChan = c.closeChan) ∨
      ((c.mutex = some t ∨ c.mutex = none) ∧ (c1.mutex = some t ∨ c1.mutex = none))) :
    LocalOk c1 i pc1 := by
  rcases hc with ⟨h1, h2, h3⟩ | ⟨h1, h2⟩
  · cases pc1 <;> simp only [LocalOk, h1, h2, h3] at h ⊢ <;> exact h
  · have hci : c.mutex ≠ some i := by
      rcases h1 with h1 | h1 <;> rw [h1] <;> simp [hne, Ne.symm hne]
    have hc1i : c1.mutex ≠ some i := by
      rcases h2 with h2 | h2 <;> rw [h2] <;> simp [hne, Ne.symm hne]
    cases pc1 <;> simp only [LocalOk] at h ⊢ <;> first | exact hc1i | exact absurd h.1 hci

theorem SameFlags.refl (c : wsConnection) : SameFlags c c := ⟨rfl, rfl, rfl, rfl, rfl⟩

theorem wsRead_flags {c c1 : wsConnection} {pick : SelectCase}
    {r : Option wsMessage × Option String} (h : wsRead c pick = some (r, c1)) :
    SameFlags c c1 := by
  cases pick <;> simp only [wsRead] at h <;> split at h <;> simp at h <;>
    obtain ⟨-, rfl⟩ := h <;> exact ⟨rfl, rfl, rfl, rfl, rfl⟩

theorem wsWrite_flags {c c1 : wsConnection} {t : Int} {d : Bytes} {pick : SelectCase}
    {r : Option String} (h : wsWrite c t d pick = some (r, c1)) :
    SameFlags c c1 := by
  cases pick <;> simp only [wsWrite] at h <;> split at h <;> simp at h <;>
    obtain ⟨-, rfl⟩ := h <;> exact ⟨rfl, rfl, rfl, rfl, rfl⟩

theorem wsWriteLoopSelect_flags {c c1 : wsConnection} {pick : SelectCase}
    {r : Option wsMessage} (h : wsWriteLoopSelect c pick = some (r, c1)) :
    SameFlags c c1 := by
  cases pick <;> simp only [wsWriteLoopSelect] at h <;> split at h <;> simp at h <;>
    obtain ⟨-, rfl⟩ := h <;> exact ⟨rfl, rfl, rfl, rfl, rfl⟩

theorem wsReadLoopSelect_flags {c c1 : wsConnection} {req : wsMessage} {pick : SelectCase}
    {r : Bool} (h : wsReadLoopSelect c req pick = some (r, c1)) :
    SameFlags c c1 := by
  cases pick <;> simp only [wsReadLoopSelect] at h <;> split at h <;> simp at h <;>
    obtain ⟨-, rfl⟩ := h <;> exact ⟨rfl, rfl, rfl, rfl, rfl⟩

theorem exec_frame {c : wsConnection} {t : Nat} {ch : Choice} {pc : Pc} {e : Effect}
    (h : exec c t ch pc = some e) (hpc : pc.pastSocketClose = false) :
    SameFlags c e.conn ∧ e.panicked = false ∧
      (e.pc.pastSocketClose = true → ∃ k, e.pc = .wsClose_lock k) ∧
      (∀ pc1 ∈ e.spawn, e.conn = c ∧ pc1 = .heartbeat_sleep) := by
  cases pc <;> simp only [Pc.pastSocketClose] at hpc <;>
    (try exact absurd hpc (by decide)) <;> simp only [exec] at h
  case caller k =>
    rcases k with _ | ⟨call, k⟩
    · simp [exec] at h
    · cases call <;> simp only [exec] at h
      · simp only [Option.some.injEq] at h; subst h
        simp [SameFlags.refl, Pc.pastSocketClose]
      · split at h
        · simp at h
        · rename_i heq
          simp only [Option.some.injEq] at h; subst h
          simp [wsWrite_flags heq, Pc.pastSocketClose]
        · rename_i heq
          simp only [Option.some.injEq] at h; subst h
          simp [wsWrite_flags heq, Pc.pastSocketClose]
      · split at h
        · simp at h
        · rename_i heq
          simp only [Option.some.injEq] at h; subst h
          simp [wsRead_flags heq, Pc.pastSocketClose]
        · rename_i heq
          simp only [Option.some.injEq] at h; subst h
          simp [wsRead_flags heq, Pc.pastSocketClose]
        · simp at h
  all_goals first
    | (simp only [Option.some.injEq] at h; subst h
       simp [SameFlags.refl, Pc.pastSocketClose])
    | (split at h <;> first
        | (exact Option.noConfusion h)
        | (rename_i heq
           simp only [Option.some.injEq] at h; subst h
           first
            | (simp [wsWrite_flags heq, Pc.pastSocketClose])
            | (simp [wsRead_flags heq, Pc.pastSocketClose])
            | (simp [wsWriteLoopSelect_flags heq, Pc.pastSocketClose])
            | (simp [wsReadLoopSelect_flags heq, Pc.pastSocketClose]))
        | (simp only [Option.some.injEq] at h; subst h
           simp [SameFlags.refl, Pc.pastSocketClose]))

theorem localOk_outside {c : wsConnection} {i : Nat} {pc : Pc}
    (h : pc.pastSocketClose = false ∨ ∃ k, pc = .wsClose_lock k) :
    LocalOk c i pc ↔ c.mutex ≠ some i := by
  rcases h with h | ⟨k, rfl⟩
  · cases pc <;> simp only [Pc.pastSocketClose] at h <;>
      (try exact absurd h (by decide)) <;> simp only [LocalOk]
  · simp only [LocalOk]

theorem exec_localOk {c : wsConnection} {t : Nat} {ch : Choice} {pc : Pc} {e : Effect}
    {n : Nat} (h : exec c t ch pc = some e) (hl : LocalOk c t pc) (hg : GlobalOk c n)
    (ht : t < n) :
    LocalOk e.conn t e.pc ∧ GlobalOk e.conn n ∧ e.panicked = false ∧
    (∀ i pc1, i ≠ t → LocalOk c i pc1 → LocalOk e.conn i pc1) ∧
    (∀ pc1 ∈ e.spawn, e.conn = c ∧ pc1 = .heartbeat_sleep) := by
  cases hpc : pc.pastSocketClose
  · obtain ⟨hf, hp, hpc1, hsp⟩ := exec_frame h hpc
    obtain ⟨f1, f2, f3, -, -⟩ := hf
    refine ⟨?_, ?_, hp, ?_, hsp⟩
    · rw [localOk_outside (Or.inl hpc)] at hl
      have : e.pc.pastSocketClose = false ∨ ∃ k, e.pc = .wsClose_lock k := by
        cases hq : e.pc.pastSocketClose
        · exact Or.inl rfl
        · exact Or.inr (hpc1 hq)
      rw [localOk_outside this, f1]
      exact hl
    · simpa only [GlobalOk, f1, f2, f3] using hg
    · intro i pc1 hne h1
      exact localOk_other hne h1 (Or.inl ⟨f1, f2, f3⟩)
  · cases pc <;> simp only [Pc.pastSocketClose] at hpc <;>
      (try exact absurd hpc (by decide)) <;> simp only [exec] at h
    case wsClose_lock k =>
      split at h
      · rename_i hm
        simp only [Option.some.injEq] at h; subst h
        refine ⟨⟨rfl, hg.1 hm⟩, ⟨by simp, ?_⟩, rfl, ?_, by simp⟩
        · intro i hi
          simp only [Option.some.injEq] at hi
          exact hi ▸ ht
        · intro i pc1 hne h1
          exact localOk_other hne h1 (Or.inr ⟨Or.inr hm, Or.inl rfl⟩)
      · simp at h
    case wsClose_test k =>
      simp only [LocalOk] at hl
      obtain ⟨hm, hic⟩ := hl
      split at h
      · rename_i hcl
        simp only [Option.some.injEq] at h; subst h
        simp only [Bool.not_eq_true', ] at hcl
        refine ⟨⟨hm, hcl, by rw [← hic]; exact hcl⟩, hg, rfl, fun i pc1 _ h1 => h1, by simp⟩
      · rename_i hcl
        simp only [Bool.not_eq_true', Bool.not_eq_false] at hcl
        simp only [Option.some.injEq] at h; subst h
        refine ⟨⟨hm, hcl, by rw [← hic]; exact hcl⟩, hg, rfl, fun i pc1 _ h1 => h1, by simp⟩
    case wsClose_set k =>
      simp only [LocalOk] at hl
      obtain ⟨hm, hic, hcc⟩ := hl
      simp only [Option.some.injEq] at h; subst h
      refine ⟨⟨hm, rfl, hcc⟩, ⟨?_, hg.2⟩, rfl, ?_, by simp⟩
      · intro h0; simp [hm] at h0
      · intro i pc1 hne h1
        exact localOk_other hne h1 (Or.inr ⟨Or.inl hm, Or.inl hm⟩)
    case wsClose_close k =>
      simp only [LocalOk] at hl
      obtain ⟨hm, hic, hcc⟩ := hl
      simp only [hcc, Bool.false_eq_true, if_false, Option.some.injEq] at h; subst h
      refine ⟨⟨hm, hic, rfl⟩, ⟨?_, hg.2⟩, rfl, ?_, by simp⟩
      · intro h0; simp [hm] at h0
      · intro i pc1 hne h1
        exact localOk_other hne h1 (Or.inr ⟨Or.inl hm, Or.inl hm⟩)
    case wsClose_unlock k =>
      simp only [LocalOk] at hl
      obtain ⟨hm, hic, hcc⟩ := hl
      simp only [Option.some.injEq] at h; subst h
      refine ⟨?_, ⟨?_, ?_⟩, rfl, ?_, by simp⟩
      · simp [LocalOk]
      · intro _; simp [hic, hcc]
      · intro i hi; simp at hi
      · intro i pc1 hne h1
        exact localOk_other hne h1 (Or.inr ⟨Or.inl hm, Or.inr rfl⟩)

theorem run_invariant {P : System → Prop}
    (hstep : ∀ s ch s1, P s → step s ch = some s1 → P s1) :
    ∀ (sched : List Choice) (s s1 : System), P s → run s sched = some s1 → P s1 := by
  intro sched
  induction sched with
  | nil =>
    intro s s1 hP h
    simp only [run, Option.some.injEq] at h
    exact h ▸ hP
  | cons ch rest ih =>
    intro s s1 hP h
    simp only [run] at h
    split at h
    · exact Option.noConfusion h
    · rename_i s2 hs2
      exact ih s2 s1 (hstep s ch s2 hP hs2) h

theorem reachable_invariant {P : System → Prop}
    (hinit : ∀ callers s0, wsHandler false callers = some s0 → P s0)
    (hstep : ∀ s ch s1, P s → step s ch = some s1 → P s1) :
    ∀ s, Reachable s → P s := by
  rintro s ⟨callers, sched, s0, h0, hrun⟩
  exact run_invariant hstep sched s0 s (hinit callers s0 h0) hrun

theorem wsHandler_some {callers : List (List Call)} {s0 : System}
    (h : wsHandler false callers = some s0) :
    s0 = ⟨newConnection,
      [.procLoop_go, .wsReadLoop_read, .wsWriteLoop_select] ++ callers.map Pc.caller,
      false, []⟩ := by
  simp only [wsHandler, Bool.false_eq_true, if_false, Option.some.injEq] at h
  exact h.symm

theorem wsHandler_threads {callers : List (List Call)} {i : Nat} {pc : Pc}
    (h : ([Pc.procLoop_go, .wsReadLoop_read, .wsWriteLoop_select] ++
      callers.map Pc.caller)[i]? = some pc) :
    (i = 0 ∧ pc = .procLoop_go) ∨ (i = 1 ∧ pc = .wsReadLoop_read) ∨
      (i = 2 ∧ pc = .wsWriteLoop_select) ∨ (3 ≤ i ∧ ∃ k, pc = .caller k) := by
  match i with
  | 0 => simp at h; exact Or.inl ⟨rfl, h.symm⟩
  | 1 => simp at h; exact Or.inr (Or.inl ⟨rfl, h.symm⟩)
  | 2 => simp at h; exact Or.inr (Or.inr (Or.inl ⟨rfl, h.symm⟩))
  | j + 3 =>
    refine Or.inr (Or.inr (Or.inr ⟨by omega, ?_⟩))
    have hm := List.getElem?_mem h
    simp only [List.cons_append, List.nil_append, List.mem_cons, List.mem_map] at hm
    have h3 : ([Pc.procLoop_go, .wsReadLoop_read, .wsWriteLoop_select] ++
      callers.map Pc.caller)[j + 3]? = (callers.map Pc.caller)[j]? := by
      simp
    rw [h3] at h
    have hm := List.getElem?_mem h
    simp only [List.mem_map] at hm
    obtain ⟨k, -, hk⟩ := hm
    exact ⟨k, hk.symm⟩

theorem mutexOk_init {callers : List (List Call)} {s0 : System}
    (h : wsHandler false callers = some s0) : MutexOk s0 := by
  rw [wsHandler_some h]
  refine ⟨rfl, ⟨fun _ => rfl, fun i hi => ?_⟩, ?_⟩
  · simp [newConnection] at hi
  · intro i pc hi
    have hout : pc.pastSocketClose = false := by
      rcases wsHandler_threads hi with ⟨-, rfl⟩ | ⟨-, rfl⟩ | ⟨-, rfl⟩ | ⟨-, k, rfl⟩ <;> rfl
    rw [localOk_outside (Or.inl hout)]
    simp [newConnection]

theorem mutexOk_step {s s1 : System} {ch : Choice} (hs : MutexOk s)
    (h : step s ch = some s1) : MutexOk s1 := by
  obtain ⟨-, pc, e, hpc, he, rfl⟩ := step_some h
  obtain ⟨-, hg, hl⟩ := hs
  have ht : ch.tid < s.threads.length := by
    rcases Nat.lt_or_ge ch.tid s.threads.length with h1 | h1
    · exact h1
    · rw [List.getElem?_eq_none h1] at hpc; exact Option.noConfusion hpc
  obtain ⟨hl1, hg1, hp1, hother, hsp⟩ := exec_localOk he (hl _ _ hpc) hg ht
  refine ⟨hp1, ⟨hg1.1, fun i hi => ?_⟩, ?_⟩
  · have := hg1.2 i hi
    simp only [List.length_append, List.length_set]
    omega
  · intro i pc1 hi
    rcases threads_after hpc hi with ⟨rfl, rfl⟩ | ⟨hne, hold⟩ | ⟨hge, hmem⟩
    · exact hl1
    · exact hother i pc1 hne (hl i pc1 hold)
    · obtain ⟨hc, rfl⟩ := hsp pc1 hmem
      rw [localOk_outside (Or.inl (rfl : Pc.heartbeat_sleep.pastSocketClose = false))]
      intro hm
      have := hg1.2 i hm
      rw [hc] at hm
      have := hg.2 i hm
      omega

theorem mutexOk_reachable {s : System} (h : Reachable s) : MutexOk s :=
  reachable_invariant (fun _ _ h0 => mutexOk_init h0) (fun _ _ _ hs hst => mutexOk_step hs hst)
    s h

theorem exec_protocol {c : wsConnection} {t : Nat} {ch : Choice} {pc : Pc} {e : Effect}
    (h : exec c t ch pc = some e) (hl : LocalOk c t pc) :
    (e.conn.mutex = c.mutex ∧ e.conn.isClosed = c.isClosed ∧ e.conn.closeChan = c.closeChan ∧
      ∀ ev ∈ e.events, ev.isProtocol = false) ∨
    (c.mutex = none ∧ e.conn.mutex = some t ∧ e.conn.isClosed = c.isClosed ∧
      e.conn.closeChan = c.closeChan ∧ e.events = [.lock t]) ∨
    (c.mutex = some t ∧ c.closeChan = false ∧ e.conn.mutex = c.mutex ∧
      e.conn.closeChan = false ∧ e.conn.isClosed = true ∧ e.events = []) ∨
    (c.mutex = some t ∧ c.closeChan = false ∧ e.conn.mutex = c.mutex ∧
      e.conn.closeChan = true ∧ e.conn.isClosed = true ∧ e.events = [.chanClose t]) ∨
    (c.closeChan = true ∧ c.isClosed = true ∧ e.conn.closeChan = true ∧
      e.conn.isClosed = true ∧ e.conn.mutex = none ∧
      e.events = [.unlock t, .ret_wsClose t]) := by
  cases hpc : pc.pastSocketClose
  · left
    obtain ⟨⟨f1, f2, f3, -, -⟩, -, -, -⟩ := exec_frame h hpc
    refine ⟨f1, f2, f3, ?_⟩
    cases pc <;> simp only [Pc.pastSocketClose] at hpc <;>
      (try exact absurd hpc (by decide)) <;> simp only [exec] at h
    case caller k =>
      rcases k with _ | ⟨call, k⟩
      · simp [exec] at h
      · cases call <;> simp only [exec] at h
        · simp only [Option.some.injEq] at h; subst h
          simp [Event.isProtocol]
        all_goals
          split at h <;> first
            | (exact Option.noConfusion h)
            | (simp only [Option.some.injEq] at h; subst h
               simp [Event.isProtocol])
    all_goals first
      | (simp only [Option.some.injEq] at h; subst h
         simp [Event.isProtocol])
      | (split at h <;> first
          | (exact Option.noConfusion h)
          | (simp only [Option.some.injEq] at h; subst h
             simp [Event.isProtocol]))
  · cases pc <;> simp only [Pc.pastSocketClose] at hpc <;>
      (try exact absurd hpc (by decide)) <;> simp only [exec] at h
    case wsClose_lock k =>
      split at h
      · rename_i hm
        simp only [Option.some.injEq] at h; subst h
        exact Or.inr (Or.inl ⟨hm, rfl, rfl, rfl, rfl⟩)
      · exact Option.noConfusion h
    case wsClose_test k =>
      left
      split at h <;> (simp only [Option.some.injEq] at h; subst h; simp)
    case wsClose_set k =>
      simp only [LocalOk] at hl
      obtain ⟨hm, hic, hcc⟩ := hl
      simp only [Option.some.injEq] at h; subst h
      exact Or.inr (Or.inr (Or.inl ⟨hm, hcc, rfl, hcc, rfl, rfl⟩))
    case wsClose_close k =>
      simp only [LocalOk] at hl
      obtain ⟨hm, hic, hcc⟩ := hl
      simp only [hcc, Bool.false_eq_true, if_false, Option.some.injEq] at h; subst h
      exact Or.inr (Or.inr (Or.inr (Or.inl ⟨hm, hcc, rfl, rfl, hic, rfl⟩)))
    case wsClose_unlock k =>
      simp only [LocalOk] at hl
      obtain ⟨hm, hic, hcc⟩ := hl
      simp only [Option.some.injEq] at h; subst h
      exact Or.inr (Or.inr (Or.inr (Or.inr ⟨hcc, hic, hcc, hic, rfl, rfl⟩)))

theorem chanCloses_append (tr evs : List Event) :
    chanCloses (tr ++ evs) = chanCloses tr + chanCloses evs := by
  simp [chanCloses]

theorem firstLocker_append (tr evs : List Event) :
    firstLocker (tr ++ evs) = (firstLocker tr).or (firstLocker evs) := by
  simp [firstLocker, List.findSome?_append]

theorem quiet_chanCloses {evs : List Event} (h : ∀ ev ∈ evs, ev.isProtocol = false) :
    chanCloses evs = 0 := by
  simp only [chanCloses, List.countP_eq_zero]
  intro ev hev
  have := h ev hev
  cases ev <;> simp_all [Event.isProtocol, Event.isChanClose]

theorem quiet_firstLocker {evs : List Event} (h : ∀ ev ∈ evs, ev.isProtocol = false) :
    firstLocker evs = none := by
  simp only [firstLocker, List.findSome?_eq_none_iff]
  intro ev hev
  have := h ev hev
  cases ev <;> simp_all [Event.isProtocol, Event.locker]

theorem quiet_mem {tr evs : List Event} (h : ∀ ev ∈ evs, ev.isProtocol = false)
    {ev : Event} (hp : ev.isProtocol = true) (hm : ev ∈ tr ++ evs) : ev ∈ tr := by
  rcases List.mem_append.1 hm with h1 | h1
  · exact h1
  · rw [h ev h1] at hp
    exact absurd hp (by decide)

theorem chanCloses_zero_not_mem {tr : List Event} (h : chanCloses tr = 0) (t : Nat) :
    Event.chanClose t ∉ tr := by
  simp only [chanCloses, List.countP_eq_zero] at h
  intro hm
  exact h _ hm rfl

theorem traceOk_init {callers : List (List Call)} {s0 : System}
    (h : wsHandler false callers = some s0) : TraceOk s0 := by
  rw [wsHandler_some h]
  simp [TraceOk, chanCloses, firstLocker, newConnection]

theorem traceOk_step {s s1 : System} {ch : Choice} (hm : MutexOk s) (hs : TraceOk s)
    (h : step s ch = some s1) : TraceOk s1 := by
  obtain ⟨-, pc, e, hpc, he, rfl⟩ := step_some h
  obtain ⟨h0, h1, h2, h3, h4⟩ := hs
  rcases exec_protocol he (hm.2.2 _ _ hpc) with
    ⟨fm, fi, fc, hq⟩ | ⟨cm, em, ei, ec, hev⟩ | ⟨cm, cc, em, ec, ei, hev⟩ |
    ⟨cm, cc, em, ec, ei, hev⟩ | ⟨cc, ci, ec, ei, em, hev⟩
  · refine ⟨?_, ?_, ?_, ?_, ?_⟩
    · intro t ht
      exact h0 t (quiet_mem hq rfl ht)
    · show chanCloses (s.trace ++ e.events) = _
      rw [chanCloses_append, quiet_chanCloses hq, fc, Nat.add_zero]
      exact h1
    · intro t ht
      show e.conn.isClosed = true ∧ e.conn.closeChan = true
      rw [fi, fc]
      exact h2 t (quiet_mem hq rfl ht)
    · intro t ht
      show firstLocker (s.trace ++ e.events) = _
      rw [firstLocker_append, h3 t (quiet_mem hq rfl ht)]
      rfl
    · intro hc
      show firstLocker (s.trace ++ e.events) = e.conn.mutex
      rw [firstLocker_append, quiet_firstLocker hq, fm, Option.or_none]
      exact h4 (by rw [← fc]; exact hc)
  · refine ⟨?_, ?_, ?_, ?_, ?_⟩
    · intro t ht
      simp only [hev, List.mem_append, List.mem_singleton] at ht
      rcases ht with ht | ht
      · exact h0 t ht
      · exact Event.noConfusion ht
    · show chanCloses (s.trace ++ e.events) = _
      rw [chanCloses_append, hev, ec]
      simpa [chanCloses, Event.isChanClose] using h1
    · intro t ht
      simp only [hev, List.mem_append, List.mem_singleton] at ht
      show e.conn.isClosed = true ∧ e.conn.closeChan = true
      rw [ei, ec]
      rcases ht with ht | ht
      · exact h2 t ht
      · exact Event.noConfusion ht
    · intro t ht
      simp only [hev, List.mem_append, List.mem_singleton] at ht
      show firstLocker (s.trace ++ e.events) = _
      rcases ht with ht | ht
      · rw [firstLocker_append, h3 t ht]
        rfl
      · exact Event.noConfusion ht
    · intro hc
      show firstLocker (s.trace ++ e.events) = e.conn.mutex
      rw [firstLocker_append, h4 (by rw [← ec]; exact hc), cm, em, hev]
      rfl
  · refine ⟨?_, ?_, ?_, ?_, ?_⟩
    · intro t ht
      simp only [hev, List.append_nil] at ht
      exact h0 t ht
    · show chanCloses (s.trace ++ e.events) = _
      rw [hev, List.append_nil, ec, h1, cc]
    · intro t ht
      simp only [hev, List.append_nil] at ht
      have := (h2 t ht).2
      rw [cc] at this
      exact absurd this (by decide)
    · intro t ht
      simp only [hev, List.append_nil] at ht ⊢
      exact h3 t ht
    · intro _
      show firstLocker (s.trace ++ e.events) = e.conn.mutex
      rw [hev, List.append_nil, em]
      exact h4 cc
  · have hz : chanCloses s.trace = 0 := by rw [h1, cc]; rfl
    refine ⟨?_, ?_, ?_, ?_, ?_⟩
    · intro t ht
      simp only [hev, List.mem_append, List.mem_singleton] at ht
      rcases ht with ht | ht
      · exact h0 t ht
      · exact Event.noConfusion ht
    · show chanCloses (s.trace ++ e.events) = _
      rw [chanCloses_append, hev, ec, hz]
      rfl
    · intro t _
      exact ⟨ei, ec⟩
    · intro t ht
      simp only [hev, List.mem_append, List.mem_singleton] at ht
      show firstLocker (s.trace ++ e.events) = _
      rw [firstLocker_append, h4 cc, cm]
      rcases ht with ht | ht
      · exact absurd ht (chanCloses_zero_not_mem hz t)
      · cases ht
        rfl
    · intro hc
      rw [ec] at hc
      exact absurd hc (by decide)
  · refine ⟨?_, ?_, ?_, ?_, ?_⟩
    · intro t ht
      simp only [hev, List.mem_append, List.mem_cons, List.not_mem_nil, or_false] at ht
      rcases ht with ht | ht | ht
      · exact h0 t ht
      · exact Event.noConfusion ht
      · exact Event.noConfusion ht
    · show chanCloses (s.trace ++ e.events) = _
      rw [chanCloses_append, hev, ec, h1, cc]
      rfl
    · intro t _
      exact ⟨ei, ec⟩
    · intro t ht
      simp only [hev, List.mem_append, List.mem_cons, List.not_mem_nil, or_false] at ht
      show firstLocker (s.trace ++ e.events) = _
      rcases ht with ht | ht | ht
      · rw [firstLocker_append, h3 t ht]
        rfl
      · exact Event.noConfusion ht
      · exact Event.noConfusion ht
    · intro hc
      rw [ec] at hc
      exact absurd hc (by decide)

theorem countP_threads {l : List Pc} {t : Nat} {pc0 : Pc} {sp : List Pc} (p : Pc → Bool)
    (pc1 : Pc)
    (ht : l[t]? = some pc0) (hsp : ∀ x ∈ sp, p x = false) :
    (l.set t pc1 ++ sp).countP p + (if p pc0 then 1 else 0) =
      l.countP p + (if p pc1 then 1 else 0) := by
  have hz : sp.countP p = 0 := by
    rw [List.countP_eq_zero]
    intro x hx
    simp [hsp x hx]
  rw [List.countP_append, hz, Nat.add_zero]
  induction l generalizing t with
  | nil => simp at ht
  | cons x l ih =>
    cases t with
    | zero =>
      simp only [List.getElem?_cons_zero, Option.some.injEq] at ht
      subst ht
      simp only [List.set_cons_zero, List.countP_cons]
      omega
    | succ t =>
      simp only [List.getElem?_cons_succ] at ht
      have := ih ht
      simp only [List.set_cons_succ, List.countP_cons]
      omega

theorem exec_counts {c : wsConnection} {t : Nat} {ch : Choice} {pc : Pc} {e : Effect}
    (h : exec c t ch pc = some e) :
    (closeCalls e.events + (if pc.atSocketClose then 1 else 0) =
      socketCloses e.events + (if e.pc.atSocketClose then 1 else 0)) ∧
    (socketCloses e.events + (if pc.pastSocketClose then 1 else 0) =
      closeReturns e.events + (if e.pc.pastSocketClose then 1 else 0)) ∧
    (∀ pc1 ∈ e.spawn, pc1.atSocketClose = false ∧ pc1.pastSocketClose = false) ∧
    (∀ t1 b, Event.sockClose t1 b ∈ e.events →
      b = decide (c.mutex = some t) ∧ ∃ k, pc = .wsClose_socket k) := by
  cases pc <;> simp only [exec] at h
  case caller k =>
    rcases k with _ | ⟨call, k⟩
    · simp [exec] at h
    · cases call <;> simp only [exec] at h
      · simp only [Option.some.injEq] at h; subst h
        simp [closeCalls, socketCloses, closeReturns, Pc.atSocketClose, Pc.pastSocketClose,
          Event.isCall, Event.isSockClose, Event.isRet]
      all_goals
        split at h <;> first
          | (exact Option.noConfusion h)
          | (simp only [Option.some.injEq] at h; subst h
             simp [closeCalls, socketCloses, closeReturns, Pc.atSocketClose,
               Pc.pastSocketClose, Event.isCall, Event.isSockClose, Event.isRet])
  all_goals first
    | (simp only [Option.some.injEq] at h; subst h
       simp [closeCalls, socketCloses, closeReturns, Pc.atSocketClose, Pc.pastSocketClose,
         Event.isCall, Event.isSockClose, Event.isRet])
    | (split at h <;> first
        | (exact Option.noConfusion h)
        | (simp only [Option.some.injEq] at h; subst h
           simp [closeCalls, socketCloses, closeReturns, Pc.atSocketClose,
             Pc.pastSocketClose, Event.isCall, Event.isSockClose, Event.isRet]))

theorem countsOk_init {callers : List (List Call)} {s0 : System}
    (h : wsHandler false callers = some s0) : CountsOk s0 := by
  rw [wsHandler_some h]
  have hz : ∀ p : Pc → Bool, (∀ k, p (.caller k) = false) →
      (callers.map Pc.caller).countP p = 0 := by
    intro p hp
    rw [List.countP_eq_zero]
    intro x hx
    obtain ⟨k, -, rfl⟩ := List.mem_map.1 hx
    simp [hp k]
  refine ⟨?_, ?_, ?_⟩
  · simp only [closeCalls, socketCloses, List.countP_nil, List.countP_append,
      hz Pc.atSocketClose (fun _ => rfl)]
    rfl
  · simp only [closeReturns, socketCloses, List.countP_nil, List.countP_append,
      hz Pc.pastSocketClose (fun _ => rfl)]
    rfl
  · intro t b hb
    exact absurd hb (List.not_mem_nil _)

theorem countsOk_step {s s1 : System} {ch : Choice} (hm : MutexOk s) (hs : CountsOk s)
    (h : step s ch = some s1) : CountsOk s1 := by
  obtain ⟨-, pc, e, hpc, he, rfl⟩ := step_some h
  obtain ⟨h1, h2, h3⟩ := hs
  obtain ⟨e1, e2, e3, e4⟩ := exec_counts he
  have c1 := countP_threads Pc.atSocketClose e.pc hpc (fun x hx => (e3 x hx).1)
  have c2 := countP_threads Pc.pastSocketClose e.pc hpc (fun x hx => (e3 x hx).2)
  have a1 : closeCalls (s.trace ++ e.events) = closeCalls s.trace + closeCalls e.events := by
    simp [closeCalls]
  have a2 : socketCloses (s.trace ++ e.events) =
      socketCloses s.trace + socketCloses e.events := by
    simp [socketCloses]
  have a3 : closeReturns (s.trace ++ e.events) =
      closeReturns s.trace + closeReturns e.events := by
    simp [closeReturns]
  refine ⟨?_, ?_, ?_⟩
  · show closeCalls (s.trace ++ e.events) =
      socketCloses (s.trace ++ e.events) + (s.threads.set ch.tid e.pc ++ e.spawn).countP _
    omega
  · show socketCloses (s.trace ++ e.events) =
      closeReturns (s.trace ++ e.events) + (s.threads.set ch.tid e.pc ++ e.spawn).countP _
    omega
  · intro t b hb
    rcases List.mem_append.1 hb with hb | hb
    · exact h3 t b hb
    · obtain ⟨rfl, k, rfl⟩ := e4 t b hb
      have := hm.2.2 _ _ hpc
      simp only [LocalOk] at this
      simp [this]

/-- Everything that holds in every state of a connection built by `wsHandler`. -/
theorem reachable_ok {s : System} (h : Reachable s) : MutexOk s ∧ TraceOk s ∧ CountsOk s :=
  @reachable_invariant (fun s => MutexOk s ∧ TraceOk s ∧ CountsOk s)
    (fun _ _ h0 => ⟨mutexOk_init h0, traceOk_init h0, countsOk_init h0⟩)
    (fun _ _ _ hs hst =>
      ⟨mutexOk_step hs.1 hst, traceOk_step hs.1 hs.2.1 hst, countsOk_step hs.1 hs.2.2 hst⟩)
    s h

theorem exec_monotone {c : wsConnection} {t : Nat} {ch : Choice} {pc : Pc} {e : Effect}
    (h : exec c t ch pc = some e) :
    (c.isClosed = true → e.conn.isClosed = true) ∧
      (c.closeChan = true → e.conn.closeChan = true) := by
  cases hpc : pc.pastSocketClose
  · obtain ⟨⟨-, f2, f3, -, -⟩, -, -, -⟩ := exec_frame h hpc
    rw [f2, f3]
    exact ⟨id, id⟩
  · cases pc <;> simp only [Pc.pastSocketClose] at hpc <;>
      (try exact absurd hpc (by decide)) <;> simp only [exec] at h
    all_goals first
      | (simp only [Option.some.injEq] at h; subst h
         simp)
      | (split at h <;> first
          | (exact Option.noConfusion h)
          | (simp only [Option.some.injEq] at h; subst h
             simp))

theorem step_monotone {s s1 : System} {ch : Choice} (h : step s ch = some s1) :
    (s.conn.isClosed = true → s1.conn.isClosed = true) ∧
      (s.conn.closeChan = true → s1.conn.closeChan = true) := by
  obtain ⟨-, pc, e, -, he, rfl⟩ := step_some h
  exact exec_monotone he

theorem wsWrite_eq_some {c c1 : wsConnection} {t : Int} {d : Bytes} {pick : SelectCase}
    {r : Option String} (h : wsWrite c t d pick = some (r, c1)) :
    (pick = .comm ∧ c.outChan.length < c.outCap ∧ r = none ∧
      c1 = { c with outChan := c.outChan ++ [⟨t, d⟩] }) ∨
    (pick = .closed ∧ c.closeChan = true ∧ r = some errClosed ∧ c1 = c) := by
  cases pick <;> simp only [wsWrite] at h <;> split at h <;>
    first
      | exact Option.noConfusion h
      | (rename_i hc
         simp only [Option.some.injEq, Prod.mk.injEq] at h
         obtain ⟨rfl, rfl⟩ := h
         first
          | exact Or.inl ⟨rfl, hc, rfl, rfl⟩
          | exact Or.inr ⟨rfl, hc, rfl, rfl⟩)

theorem wsRead_eq_some {c c1 : wsConnection} {pick : SelectCase}
    {r : Option wsMessage × Option String} (h : wsRead c pick = some (r, c1)) :
    (pick = .comm ∧ ∃ msg rest, c.inChan = msg :: rest ∧ r = (some msg, none) ∧
      c1 = { c with inChan := rest }) ∨
    (pick = .closed ∧ c.closeChan = true ∧ r = (none, some errClosed) ∧ c1 = c) := by
  cases pick <;> simp only [wsRead] at h <;> split at h <;>
    first
      | exact Option.noConfusion h
      | (rename_i hc
         simp only [Option.some.injEq, Prod.mk.injEq] at h
         obtain ⟨rfl, rfl⟩ := h
         first
          | exact Or.inl ⟨rfl, _, _, hc, rfl, rfl⟩
          | exact Or.inr ⟨rfl, hc, rfl, rfl⟩)

theorem wsWriteLoopSelect_eq_some {c c1 : wsConnection} {pick : SelectCase}
    {r : Option wsMessage} (h : wsWriteLoopSelect c pick = some (r, c1)) :
    (pick = .comm ∧ ∃ msg rest, c.outChan = msg :: rest ∧ r = some msg ∧
      c1 = { c with outChan := rest }) ∨
    (pick = .closed ∧ c.closeChan = true ∧ r = none ∧ c1 = c) := by
  cases pick <;> simp only [wsWriteLoopSelect] at h <;> split at h <;>
    first
      | exact Option.noConfusion h
      | (rename_i hc
         simp only [Option.some.injEq, Prod.mk.injEq] at h
         obtain ⟨rfl, rfl⟩ := h
         first
          | exact Or.inl ⟨rfl, _, _, hc, rfl, rfl⟩
          | exact Or.inr ⟨rfl, hc, rfl, rfl⟩)

theorem wsReadLoopSelect_eq_some {c c1 : wsConnection} {req : wsMessage} {pick : SelectCase}
    {r : Bool} (h : wsReadLoopSelect c req pick = some (r, c1)) :
    (pick = .comm ∧ c.inChan.length < c.inCap ∧ r = true ∧
      c1 = { c with inChan := c.inChan ++ [req] }) ∨
    (pick = .closed ∧ c.closeChan = true ∧ r = false ∧ c1 = c) := by
  cases pick <;> simp only [wsReadLoopSelect] at h <;> split at h <;>
    first
      | exact Option.noConfusion h
      | (rename_i hc
         simp only [Option.some.injEq, Prod.mk.injEq] at h
         obtain ⟨rfl, rfl⟩ := h
         first
          | exact Or.inl ⟨rfl, hc, rfl, rfl⟩
          | exact Or.inr ⟨rfl, hc, rfl, rfl⟩)

theorem pendingWrite_nil {pc : Pc} (h : pc.isWriteLoop = false) : pc.pendingWrite = [] := by
  cases pc <;> simp_all [Pc.isWriteLoop, Pc.pendingWrite]

theorem exec_fifo {c : wsConnection} {t : Nat} {ch : Choice} {pc : Pc} {e : Effect}
    (h : exec c t ch pc = some e) :
    (pc.pendingWrite ++ c.outChan ++ enqueuedMessages e.events =
      writtenFrames e.events ++ e.pc.pendingWrite ++ e.conn.outChan) ∧
    (pc.isWriteLoop = true → enqueuedMessages e.events = []) ∧
    (pc.isWriteLoop = false → writtenFrames e.events = [] ∧ e.pc.isWriteLoop = false) ∧
    (∀ pc1 ∈ e.spawn, pc1.isWriteLoop = false) := by
  cases pc <;> simp only [exec] at h
  case caller k =>
    rcases k with _ | ⟨call, k⟩
    · simp [exec] at h
    · cases call <;> simp only [exec] at h
      · simp only [Option.some.injEq] at h; subst h
        simp [enqueuedMessages, writtenFrames, Pc.pendingWrite, Pc.isWriteLoop, Event.queued,
          Event.written]
      all_goals
        split at h <;> first
          | (exact Option.noConfusion h)
          | (rename_i heq
             simp only [Option.some.injEq] at h; subst h
             first
              | (rcases wsWrite_eq_some heq with ⟨-, -, hr, rfl⟩ | ⟨-, -, hr, rfl⟩ <;>
                  simp [enqueuedMessages, writtenFrames, Pc.pendingWrite, Pc.isWriteLoop,
                    Event.queued, Event.written] at hr ⊢)
              | (rcases wsRead_eq_some heq with ⟨-, m, rest, -, hr, rfl⟩ | ⟨-, -, hr, rfl⟩ <;>
                  simp [enqueuedMessages, writtenFrames, Pc.pendingWrite, Pc.isWriteLoop,
                    Event.queued, Event.written] at hr ⊢))
  all_goals first
    | (simp only [Option.some.injEq] at h; subst h
       simp [enqueuedMessages, writtenFrames, Pc.pendingWrite, Pc.isWriteLoop, Event.queued,
         Event.written])
    | (split at h <;> first
        | (exact Option.noConfusion h)
        | (rename_i heq
           simp only [Option.some.injEq] at h; subst h
           first
            | (rcases wsWrite_eq_some heq with ⟨-, -, hr, rfl⟩ | ⟨-, -, hr, rfl⟩ <;>
                simp [enqueuedMessages, writtenFrames, Pc.pendingWrite, Pc.isWriteLoop,
                  Event.queued, Event.written] at hr ⊢)
            | (rcases wsRead_eq_some heq with ⟨-, m, rest, -, hr, rfl⟩ | ⟨-, -, hr, rfl⟩ <;>
                simp [enqueuedMessages, writtenFrames, Pc.pendingWrite, Pc.isWriteLoop,
                  Event.queued, Event.written] at hr ⊢)
            | (rcases wsWriteLoopSelect_eq_some heq with
                ⟨-, m, rest, hq, hr, rfl⟩ | ⟨-, hq, hr, rfl⟩ <;>
                simp [enqueuedMessages, writtenFrames, Pc.pendingWrite, Pc.isWriteLoop,
                  Event.queued, Event.written, hq] at hr ⊢ <;> (try exact hr.symm))
            | (rcases wsReadLoopSelect_eq_some heq with ⟨-, -, hr, rfl⟩ | ⟨-, -, hr, rfl⟩ <;>
                simp [enqueuedMessages, writtenFrames, Pc.pendingWrite, Pc.isWriteLoop,
                  Event.queued, Event.written] at hr ⊢))
        | (simp only [Option.some.injEq] at h; subst h
           simp [enqueuedMessages, writtenFrames, Pc.pendingWrite, Pc.isWriteLoop, Event.queued,
             Event.written]))

theorem threads_get {l : List Pc} {t : Nat} {pc1 : Pc} {sp : List Pc} {i : Nat}
    (hi : i < l.length) :
    (l.set t pc1 ++ sp)[i]? = if t = i then some pc1 else l[i]? := by
  rw [List.getElem?_append_left (by simpa using hi)]
  by_cases hti : t = i
  · subst hti
    simp [List.getElem?_set_self hi]
  · simp [List.getElem?_set_ne hti, hti]

theorem enqueuedMessages_append (tr evs : List Event) :
    enqueuedMessages (tr ++ evs) = enqueuedMessages tr ++ enqueuedMessages evs := by
  simp [enqueuedMessages]

theorem writtenFrames_append (tr evs : List Event) :
    writtenFrames (tr ++ evs) = writtenFrames tr ++ writtenFrames evs := by
  simp [writtenFrames]

theorem fifoOk_init {callers : List (List Call)} {s0 : System}
    (h : wsHandler false callers = some s0) : FifoOk s0 := by
  rw [wsHandler_some h]
  refine ⟨?_, by simp, by simp [enqueuedMessages, writtenFrames, pendingAt, Pc.pendingWrite,
    newConnection]⟩
  intro i pc hi hw
  rcases wsHandler_threads hi with ⟨-, rfl⟩ | ⟨-, rfl⟩ | ⟨h2, -⟩ | ⟨-, k, rfl⟩
  · exact absurd hw (by decide)
  · exact absurd hw (by decide)
  · exact h2
  · exact absurd hw (by simp [Pc.isWriteLoop])

theorem fifoOk_step {s s1 : System} {ch : Choice} (hs : FifoOk s)
    (h : step s ch = some s1) : FifoOk s1 := by
  obtain ⟨-, pc, e, hpc, he, rfl⟩ := step_some h
  obtain ⟨hrole, hlen, heq⟩ := hs
  obtain ⟨e1, e2, e3, e4⟩ := exec_fifo he
  refine ⟨?_, ?_, ?_⟩
  · intro i pc1 hi hw
    rcases threads_after hpc hi with ⟨rfl, rfl⟩ | ⟨-, hold⟩ | ⟨-, hmem⟩
    · cases hq : pc.isWriteLoop
      · rw [(e3 hq).2] at hw
        exact absurd hw (by decide)
      · exact hrole _ _ hpc hq
    · exact hrole i pc1 hold hw
    · rw [e4 pc1 hmem] at hw
      exact absurd hw (by decide)
  · simp only [List.length_append, List.length_set]
    omega
  · show enqueuedMessages (s.trace ++ e.events) =
      writtenFrames (s.trace ++ e.events) ++
        pendingAt (s.threads.set ch.tid e.pc ++ e.spawn) 2 ++ e.conn.outChan
    rw [enqueuedMessages_append, writtenFrames_append, heq]
    have hp : pendingAt (s.threads.set ch.tid e.pc ++ e.spawn) 2 =
        if ch.tid = 2 then e.pc.pendingWrite else pendingAt s.threads 2 := by
      simp only [pendingAt, threads_get hlen]
      by_cases ht : ch.tid = 2
      · simp only [if_pos ht]
      · simp only [if_neg ht]
    rw [hp]
    by_cases ht : ch.tid = 2
    · have hp2 : pendingAt s.threads 2 = pc.pendingWrite := by
        simp only [pendingAt, ← ht, hpc]
      rw [if_pos ht, hp2]
      simp only [List.append_assoc] at e1 ⊢
      rw [e1]
    · have hq : pc.isWriteLoop = false := by
        cases hq : pc.isWriteLoop
        · rfl
        · exact absurd (hrole _ _ hpc hq) ht
      obtain ⟨w0, w1⟩ := e3 hq
      rw [if_neg ht, w0, List.append_nil]
      rw [pendingWrite_nil hq, w0, pendingWrite_nil w1] at e1
      simp only [List.nil_append, List.append_nil] at e1
      rw [← e1]
      simp only [List.append_assoc]

theorem fifoOk_reachable {s : System} (h : Reachable s) : FifoOk s :=
  reachable_invariant (fun _ _ h0 => fifoOk_init h0) (fun _ _ _ hs hst => fifoOk_step hs hst)
    s h

theorem exec_return {c : wsConnection} {t : Nat} {ch : Choice} {pc : Pc} {e : Effect}
    (h : exec c t ch pc = some e) :
    (pc.pendingReturn ++ enqueuedBy t e.events = sentBy t e.events ++ e.pc.pendingReturn) ∧
    (∀ i, i ≠ t → enqueuedBy i e.events = [] ∧ sentBy i e.events = []) ∧
    (∀ pc1 ∈ e.spawn, pc1.pendingReturn = []) := by
  cases pc <;> simp only [exec] at h
  case caller k =>
    rcases k with _ | ⟨call, k⟩
    · simp [exec] at h
    · cases call <;> simp only [exec] at h
      · simp only [Option.some.injEq] at h; subst h
        simp [enqueuedBy, sentBy, Pc.pendingReturn, Event.queuedBy, Event.sentBy]
      all_goals
        split at h <;> first
          | (exact Option.noConfusion h)
          | (simp only [Option.some.injEq] at h; subst h
             refine ⟨?_, ?_, ?_⟩
             · simp [enqueuedBy, sentBy, Pc.pendingReturn, Event.queuedBy, Event.sentBy]
             · intro i hi
               simp [enqueuedBy, sentBy, Event.queuedBy, Event.sentBy, Ne.symm hi]
             · simp)
  all_goals first
    | (simp only [Option.some.injEq] at h; subst h
       refine ⟨?_, ?_, ?_⟩
       · simp [enqueuedBy, sentBy, Pc.pendingReturn, Event.queuedBy, Event.sentBy]
       · intro i hi
         simp [enqueuedBy, sentBy, Event.queuedBy, Event.sentBy, Ne.symm hi]
       · simp [Pc.pendingReturn])
    | (split at h <;> first
        | (exact Option.noConfusion h)
        | (simp only [Option.some.injEq] at h; subst h
           refine ⟨?_, ?_, ?_⟩
           · simp [enqueuedBy, sentBy, Pc.pendingReturn, Event.queuedBy, Event.sentBy]
           · intro i hi
             simp [enqueuedBy, sentBy, Event.queuedBy, Event.sentBy, Ne.symm hi]
           · simp))

theorem returningAt_after {l : List Pc} {t : Nat} {pc0 : Pc} {sp : List Pc} (pc1 : Pc)
    (ht : l[t]? = some pc0) (hsp : ∀ x ∈ sp, x.pendingReturn = []) (i : Nat) :
    returningAt (l.set t pc1 ++ sp) i =
      if i = t then pc1.pendingReturn else returningAt l i := by
  have hlt : t < l.length := by
    rcases Nat.lt_or_ge t l.length with h1 | h1
    · exact h1
    · rw [List.getElem?_eq_none h1] at ht; exact Option.noConfusion ht
  rcases Nat.lt_or_ge i l.length with hi | hi
  · simp only [returningAt, threads_get hi]
    by_cases hit : i = t
    · simp only [hit, if_true]
    · have hti : ¬ t = i := fun h => hit h.symm
      simp only [if_neg hit, if_neg hti]
  · have hne : i ≠ t := by omega
    have hold : returningAt l i = [] := by
      simp only [returningAt, List.getElem?_eq_none hi]
    rw [if_neg hne, hold]
    simp only [returningAt]
    split
    · rename_i pc hpc
      rw [List.getElem?_append_right (by simpa using hi)] at hpc
      exact hsp pc (List.getElem?_mem hpc)
    · rfl

theorem enqueuedBy_append (i : Nat) (tr evs : List Event) :
    enqueuedBy i (tr ++ evs) = enqueuedBy i tr ++ enqueuedBy i evs := by
  simp [enqueuedBy]

theorem sentBy_append (i : Nat) (tr evs : List Event) :
    sentBy i (tr ++ evs) = sentBy i tr ++ sentBy i evs := by
  simp [sentBy]

theorem returnOk_init {callers : List (List Call)} {s0 : System}
    (h : wsHandler false callers = some s0) : ReturnOk s0 := by
  rw [wsHandler_some h]
  intro i
  show enqueuedBy i [] = sentBy i [] ++ returningAt _ i
  simp only [enqueuedBy, sentBy, List.filterMap_nil, List.nil_append, returningAt]
  split
  · rename_i pc hpc
    rcases wsHandler_threads hpc with ⟨-, rfl⟩ | ⟨-, rfl⟩ | ⟨-, rfl⟩ | ⟨-, k, rfl⟩ <;> rfl
  · rfl

theorem returnOk_step {s s1 : System} {ch : Choice} (hs : ReturnOk s)
    (h : step s ch = some s1) : ReturnOk s1 := by
  obtain ⟨-, pc, e, hpc, he, rfl⟩ := step_some h
  obtain ⟨e1, e2, e3⟩ := exec_return he
  intro i
  show enqueuedBy i (s.trace ++ e.events) =
    sentBy i (s.trace ++ e.events) ++ returningAt (s.threads.set ch.tid e.pc ++ e.spawn) i
  rw [enqueuedBy_append, sentBy_append, returningAt_after e.pc hpc e3 i, hs i]
  by_cases hit : i = ch.tid
  · subst hit
    have hold : returningAt s.threads ch.tid = pc.pendingReturn := by
      simp only [returningAt, hpc]
    rw [if_pos rfl, hold, List.append_assoc, e1, List.append_assoc]
  · obtain ⟨b1, b2⟩ := e2 i hit
    rw [if_neg hit, b1, b2]
    simp only [List.append_nil]

theorem returnOk_reachable {s : System} (h : Reachable s) : ReturnOk s :=
  reachable_invariant (fun _ _ h0 => returnOk_init h0)
    (fun _ _ _ hs hst => returnOk_step hs hst) s h

theorem exec_echo {c : wsConnection} {t : Nat} {ch : Choice} {pc : Pc} {e : Effect}
    (h : exec c t ch pc = some e) :
    (pc.isProcLoop = true →
      pc.pendingEcho ++ wsReadResults t e.events = wsWriteArgs t e.events ++ e.pc.pendingEcho ∧
      (e.pc.isProcLoop = true ∨ e.pc = .caller [])) ∧
    (∀ i, i ≠ t → wsReadResults i e.events = [] ∧ wsWriteArgs i e.events = []) := by
  cases pc <;> simp only [exec] at h
  case caller k =>
    rcases k with _ | ⟨call, k⟩
    · simp [exec] at h
    · cases call <;> simp only [exec] at h
      · simp only [Option.some.injEq] at h; subst h
        simp [wsReadResults, wsWriteArgs, Pc.isProcLoop, Event.obtainedBy, Event.handedBy]
      all_goals
        split at h <;> first
          | (exact Option.noConfusion h)
          | (simp only [Option.some.injEq] at h; subst h
             simp only [Pc.isProcLoop, Bool.false_eq_true, false_implies, true_and]
             intro i hi
             simp [wsReadResults, wsWriteArgs, Event.obtainedBy, Event.handedBy, Ne.symm hi])
  all_goals first
    | (simp only [Option.some.injEq] at h; subst h
       refine ⟨?_, ?_⟩
       · simp [wsReadResults, wsWriteArgs, Pc.isProcLoop, Pc.pendingEcho, Event.obtainedBy,
           Event.handedBy]
       · intro i hi
         simp [wsReadResults, wsWriteArgs, Event.obtainedBy, Event.handedBy, Ne.symm hi])
    | (split at h <;> first
        | (exact Option.noConfusion h)
        | (simp only [Option.some.injEq] at h; subst h
           refine ⟨?_, ?_⟩
           · simp [wsReadResults, wsWriteArgs, Pc.isProcLoop, Pc.pendingEcho,
               Event.obtainedBy, Event.handedBy]
           · intro i hi
             simp [wsReadResults, wsWriteArgs, Event.obtainedBy, Event.handedBy,
               Ne.symm hi]))

theorem wsReadResults_append (i : Nat) (tr evs : List Event) :
    wsReadResults i (tr ++ evs) = wsReadResults i tr ++ wsReadResults i evs := by
  simp [wsReadResults]

theorem wsWriteArgs_append (i : Nat) (tr evs : List Event) :
    wsWriteArgs i (tr ++ evs) = wsWriteArgs i tr ++ wsWriteArgs i evs := by
  simp [wsWriteArgs]

theorem echoOk_init {callers : List (List Call)} {s0 : System}
    (h : wsHandler false callers = some s0) : EchoOk s0 := by
  rw [wsHandler_some h]
  refine ⟨⟨.procLoop_go, by simp, Or.inl rfl⟩, ?_⟩
  simp [wsReadResults, wsWriteArgs, echoAt, Pc.pendingEcho]

theorem echoOk_step {s s1 : System} {ch : Choice} (hs : EchoOk s)
    (h : step s ch = some s1) : EchoOk s1 := by
  obtain ⟨-, pc, e, hpc, he, rfl⟩ := step_some h
  obtain ⟨⟨pc0, hpc0, hrole⟩, heq⟩ := hs
  obtain ⟨e1, e2⟩ := exec_echo he
  have hlen : 0 < s.threads.length := by
    rcases Nat.lt_or_ge 0 s.threads.length with h1 | h1
    · exact h1
    · rw [List.getElem?_eq_none h1] at hpc0; exact Option.noConfusion hpc0
  have hget : (s.threads.set ch.tid e.pc ++ e.spawn)[0]? =
      if ch.tid = 0 then some e.pc else s.threads[0]? := threads_get hlen
  have he0 : echoAt s.threads 0 = pc0.pendingEcho := by
    simp only [echoAt, hpc0]
  by_cases ht : ch.tid = 0
  · rw [ht] at hpc he e1
    rw [hpc0] at hpc
    have hpp : pc0 = pc := Option.some.inj hpc
    subst hpp
    have hproc : pc0.isProcLoop = true := by
      rcases hrole with h1 | h1
      · exact h1
      · rw [h1] at he
        simp [exec] at he
    obtain ⟨b1, b2⟩ := e1 hproc
    refine ⟨⟨e.pc, by rw [hget, if_pos ht], b2⟩, ?_⟩
    show wsReadResults 0 (s.trace ++ e.events) =
      wsWriteArgs 0 (s.trace ++ e.events) ++ echoAt (s.threads.set ch.tid e.pc ++ e.spawn) 0
    have hp : echoAt (s.threads.set ch.tid e.pc ++ e.spawn) 0 = e.pc.pendingEcho := by
      simp only [echoAt, hget, if_pos ht]
    rw [hp, wsReadResults_append, wsWriteArgs_append, heq, he0, List.append_assoc, b1,
      List.append_assoc]
  · obtain ⟨b1, b2⟩ := e2 0 (fun h0 => ht h0.symm)
    refine ⟨⟨pc0, by rw [hget, if_neg ht]; exact hpc0, hrole⟩, ?_⟩
    show wsReadResults 0 (s.trace ++ e.events) =
      wsWriteArgs 0 (s.trace ++ e.events) ++ echoAt (s.threads.set ch.tid e.pc ++ e.spawn) 0
    have hp : echoAt (s.threads.set ch.tid e.pc ++ e.spawn) 0 = echoAt s.threads 0 := by
      simp only [echoAt, hget, if_neg ht]
    rw [hp, wsReadResults_append, wsWriteArgs_append, b1, b2, heq]
    simp only [List.append_nil]

theorem echoOk_reachable {s : System} (h : Reachable s) : EchoOk s :=
  reachable_invariant (fun _ _ h0 => echoOk_init h0) (fun _ _ _ hs hst => echoOk_step hs hst)
    s h

theorem exec_bounds {c : wsConnection} {t : Nat} {ch : Choice} {pc : Pc} {e : Effect}
    (h : exec c t ch pc = some e) :
    e.conn.outCap = c.outCap ∧ e.conn.inCap = c.inCap ∧
    (c.outChan.length ≤ c.outCap → e.conn.outChan.length ≤ c.outCap) ∧
    (c.inChan.length ≤ c.inCap → e.conn.inChan.length ≤ c.inCap) := by
  cases pc <;> simp only [exec] at h
  case caller k =>
    rcases k with _ | ⟨call, k⟩
    · simp [exec] at h
    · cases call <;> simp only [exec] at h
      · simp only [Option.some.injEq] at h; subst h
        simp
      all_goals
        split at h <;> first
          | (exact Option.noConfusion h)
          | (rename_i heq
             simp only [Option.some.injEq] at h; subst h
             first
              | (rcases wsWrite_eq_some heq with ⟨-, hq, -, rfl⟩ | ⟨-, hq, -, rfl⟩ <;>
                  simp <;> omega)
              | (rcases wsRead_eq_some heq with ⟨-, m, rest, hq, -, rfl⟩ | ⟨-, hq, -, rfl⟩ <;>
                  simp [hq] <;> omega))
  all_goals first
    | (simp only [Option.some.injEq] at h; subst h
       simp)
    | (split at h <;> first
        | (exact Option.noConfusion h)
        | (rename_i heq
           simp only [Option.some.injEq] at h; subst h
           first
            | (rcases wsWrite_eq_some heq with ⟨-, hq, -, rfl⟩ | ⟨-, hq, -, rfl⟩ <;>
                simp <;> omega)
            | (rcases wsRead_eq_some heq with ⟨-, m, rest, hq, -, rfl⟩ | ⟨-, hq, -, rfl⟩ <;>
                simp [hq] <;> omega)
            | (rcases wsWriteLoopSelect_eq_some heq with
                ⟨-, m, rest, hq, -, rfl⟩ | ⟨-, hq, -, rfl⟩ <;>
                simp [hq] <;> omega)
            | (rcases wsReadLoopSelect_eq_some heq with ⟨-, hq, -, rfl⟩ | ⟨-, hq, -, rfl⟩ <;>
                simp <;> omega))
        | (simp only [Option.some.injEq] at h; subst h
           simp))

theorem boundsOk_init {callers : List (List Call)} {s0 : System}
    (h : wsHandler false callers = some s0) : BoundsOk s0 := by
  rw [wsHandler_some h]
  simp [BoundsOk, newConnection]

theorem boundsOk_step {s s1 : System} {ch : Choice} (hs : BoundsOk s)
    (h : step s ch = some s1) : BoundsOk s1 := by
  obtain ⟨-, pc, e, -, he, rfl⟩ := step_some h
  obtain ⟨h1, h2, h3, h4⟩ := hs
  obtain ⟨e1, e2, e3, e4⟩ := exec_bounds he
  refine ⟨e1.trans h1, e2.trans h2, ?_, ?_⟩
  · show e.conn.outChan.length ≤ e.conn.outCap
    rw [e1]
    exact e3 h3
  · show e.conn.inChan.length ≤ e.conn.inCap
    rw [e2]
    exact e4 h4

theorem boundsOk_reachable {s : System} (h : Reachable s) : BoundsOk s :=
  reachable_invariant (fun _ _ h0 => boundsOk_init h0)
    (fun _ _ _ hs hst => boundsOk_step hs hst) s h

/-! ## The claims -/

/-- C8: a completed `wsWrite(t, d)` has exactly one of two outcomes.  Either it
returns `nil` and the connection afterwards is the one before with the single
message `(t, d)` appended at the tail of the outbound queue, or it returns the
"websocket closed" error, the connection is unchanged and the Closed-Signal had
already fired.  While the Closed-Signal has not fired, `wsWrite` never returns an
error and never loses the message. -/
theorem wsWrite_outcomes (c : wsConnection) (t : Int) (d : Bytes) (pick : SelectCase)
    (err : Option String) (c1 : wsConnection) (h : wsWrite c t d pick = some (err, c1)) :
    ((err = none ∧ c1 = { c with outChan := c.outChan ++ [⟨t, d⟩] }) ∨
      (err = some errClosed ∧ c1 = c ∧ c.closeChan = true)) ∧
    ¬ ((err = none ∧ c1 = { c with outChan := c.outChan ++ [⟨t, d⟩] }) ∧
      (err = some errClosed ∧ c1 = c ∧ c.closeChan = true)) ∧
    (c.closeChan = false → err = none ∧ c1.outChan = c.outChan ++ [⟨t, d⟩]) := by
  rcases wsWrite_eq_some h with ⟨-, -, rfl, rfl⟩ | ⟨-, hc, rfl, rfl⟩
  · simp
  · simp [hc]

/-- Witness of C8 on the connection `wsHandler` builds, whose Closed-Signal has
not fired: `wsWrite` returns `nil` and the message is at the tail of the queue. -/
theorem wsWrite_outcomes_witness :
    wsWrite newConnection TextMessage heartbeatData .comm =
        some (none, { newConnection with outChan := [⟨TextMessage, heartbeatData⟩] }) ∧
      newConnection.closeChan = false ∧
      ({ newConnection with outChan := [⟨TextMessage, heartbeatData⟩] } :
        wsConnection).outChan = newConnection.outChan ++ [⟨TextMessage, heartbeatData⟩] :=
  ⟨rfl, rfl, ((wsWrite_outcomes newConnection TextMessage heartbeatData .comm none
    { newConnection with outChan := [⟨TextMessage, heartbeatData⟩] } rfl).2.2 rfl).2⟩

/-- C3, as stated, fails: after the read pump ran `wsClose` to its end (one return
of `wsClose` in the trace, `closeChan` closed) the outbound queue is empty, and
the heartbeat's `wsWrite` can take the send case of its select: it returns `nil`
and the heartbeat message is in the queue. -/
theorem wsWrite_after_close_counterexample :
    (execution [] schedCloseThenHeartbeat).map (fun s =>
        (closeReturns s.trace, s.conn.closeChan, s.threads[3]?, s.conn.outChan,
          (wsWrite s.conn TextMessage heartbeatData .comm).map
            (fun r => (r.1, r.2.outChan)))) =
      some (1, true, some .heartbeat_wsWrite, [],
        some (none, [⟨TextMessage, heartbeatData⟩])) := by
  rfl

/-- C3, amended: once the Closed-Signal has fired, `wsWrite` does not block (the
closed case can proceed); every outcome is either the "websocket closed" error
with the connection unchanged or, only when the outbound queue has free capacity,
`nil` with the message appended at the tail; when the outbound queue is full the
error is the only outcome; when it has free capacity the send case can proceed. -/
theorem wsWrite_after_close (c : wsConnection) (t : Int) (d : Bytes)
    (hclosed : c.closeChan = true) :
    wsWrite c t d .closed = some (some errClosed, c) ∧
    (∀ pick err c1, wsWrite c t d pick = some (err, c1) →
      (err = some errClosed ∧ c1 = c) ∨
      (err = none ∧ c.outChan.length < c.outCap ∧
        c1 = { c with outChan := c.outChan ++ [⟨t, d⟩] })) ∧
    (c.outCap ≤ c.outChan.length →
      ∀ pick err c1, wsWrite c t d pick = some (err, c1) → err = some errClosed ∧ c1 = c) ∧
    (c.outChan.length < c.outCap →
      wsWrite c t d .comm = some (none, { c with outChan := c.outChan ++ [⟨t, d⟩] })) := by
  refine ⟨by simp [wsWrite, hclosed], ?_, ?_, ?_⟩
  · intro pick err c1 h
    rcases wsWrite_eq_some h with ⟨-, hlt, rfl, rfl⟩ | ⟨-, -, rfl, rfl⟩
    · exact Or.inr ⟨rfl, hlt, rfl⟩
    · exact Or.inl ⟨rfl, rfl⟩
  · intro hfull pick err c1 h
    rcases wsWrite_eq_some h with ⟨-, hlt, rfl, rfl⟩ | ⟨-, -, rfl, rfl⟩
    · omega
    · exact ⟨rfl, rfl⟩
  · intro hlt
    simp [wsWrite, hlt]

/-- Witness of the amended C3 on the connection the read pump has closed. -/
theorem wsWrite_after_close_witness :
    (stateAfter [] schedCloseThenHeartbeat).conn.closeChan = true ∧
      wsWrite (stateAfter [] schedCloseThenHeartbeat).conn TextMessage heartbeatData .closed =
        some (some errClosed, (stateAfter [] schedCloseThenHeartbeat).conn) :=
  ⟨by decide,
    (wsWrite_after_close (stateAfter [] schedCloseThenHeartbeat).conn TextMessage heartbeatData
      (by decide)).1⟩

/-- C4, as stated, fails: the read pump queued the frame `frameA1` and then ran
`wsClose` to its end; `procLoop` is at its `wsRead`, whose select can take the
receive case: `wsRead` returns `(frameA1, nil)`. -/
theorem wsRead_after_close_counterexample :
    (execution [] schedFrameThenClose).map (fun s =>
        (closeReturns s.trace, s.conn.closeChan, s.threads[0]?, s.conn.inChan,
          (wsRead s.conn .comm).map (fun r => r.1))) =
      some (1, true, some .procLoop_wsRead, [frameA1], some (some frameA1, none)) := by
  rfl

/-- C4, amended: once the Closed-Signal has fired, `wsRead` does not block; every
outcome is either `(nil, "websocket closed")` with the connection unchanged or,
only when the inbound queue holds a message, `(head of the queue, nil)` with that
message removed; when the inbound queue is empty the error is the only outcome;
when it holds a message the receive case can proceed. -/
theorem wsRead_after_close (c : wsConnection) (hclosed : c.closeChan = true) :
    wsRead c .closed = some ((none, some errClosed), c) ∧
    (∀ pick msg err c1, wsRead c pick = some ((msg, err), c1) →
      (msg = none ∧ err = some errClosed ∧ c1 = c) ∨
      (∃ m rest, c.inChan = m :: rest ∧ msg = some m ∧ err = none ∧
        c1 = { c with inChan := rest })) ∧
    (c.inChan = [] →
      ∀ pick msg err c1, wsRead c pick = some ((msg, err), c1) →
        msg = none ∧ err = some errClosed ∧ c1 = c) ∧
    (∀ m rest, c.inChan = m :: rest →
      wsRead c .comm = some ((some m, none), { c with inChan := rest })) := by
  refine ⟨by simp [wsRead, hclosed], ?_, ?_, ?_⟩
  · intro pick msg err c1 h
    rcases wsRead_eq_some h with ⟨-, m, rest, hin, hr, rfl⟩ | ⟨-, -, hr, rfl⟩
    · simp only [Prod.mk.injEq] at hr
      exact Or.inr ⟨m, rest, hin, hr.1, hr.2, rfl⟩
    · simp only [Prod.mk.injEq] at hr
      exact Or.inl ⟨hr.1, hr.2, rfl⟩
  · intro hempty pick msg err c1 h
    rcases wsRead_eq_some h with ⟨-, m, rest, hin, hr, rfl⟩ | ⟨-, -, hr, rfl⟩
    · rw [hempty] at hin
      exact absurd hin (by simp)
    · simp only [Prod.mk.injEq] at hr
      exact ⟨hr.1, hr.2, rfl⟩
  · intro m rest hin
    simp [wsRead, hin]

/-- Witness of the amended C4 on the connection the read pump has closed. -/
theorem wsRead_after_close_witness :
    (stateAfter [] schedFrameThenClose).conn.closeChan = true ∧
      wsRead (stateAfter [] schedFrameThenClose).conn .closed =
        some ((none, some errClosed), (stateAfter [] schedFrameThenClose).conn) :=
  ⟨by decide, (wsRead_after_close (stateAfter [] schedFrameThenClose).conn (by decide)).1⟩

/-- C1: in every state of a connection built by `wsHandler`, whatever the
goroutines did (any number of `wsClose` calls, interleaved in any way with the
other operations): `close(closeChan)` was never executed on a closed channel (no
panic); it was executed at most once, and by the first `wsClose` that took the
mutex; once a `wsClose` call has returned it was executed exactly once and
`isClosed` is true and `closeChan` closed; and no step of any goroutine sets
`isClosed` back to false or re-opens `closeChan`. -/
theorem wsClose_triggers_closed_signal_once (s : System) (h : Reachable s) :
    s.panicked = false ∧
    (∀ t, Event.panicCloseOfClosed t ∉ s.trace) ∧
    chanCloses s.trace ≤ 1 ∧
    (∀ t, Event.chanClose t ∈ s.trace → firstLocker s.trace = some t) ∧
    (1 ≤ closeReturns s.trace →
      chanCloses s.trace = 1 ∧ s.conn.isClosed = true ∧ s.conn.closeChan = true) ∧
    (∀ ch s1, step s ch = some s1 →
      (s.conn.isClosed = true → s1.conn.isClosed = true) ∧
      (s.conn.closeChan = true → s1.conn.closeChan = true)) := by
  obtain ⟨hm, ⟨h0, h1, h2, h3, -⟩, -⟩ := reachable_ok h
  refine ⟨hm.1, h0, ?_, h3, ?_, fun ch s1 hst => step_monotone hst⟩
  · rw [h1]
    split <;> omega
  · intro hret
    have hpos : 0 < List.countP Event.isRet s.trace := hret
    rw [List.countP_pos_iff] at hpos
    obtain ⟨ev, hev, hp⟩ := hpos
    cases ev <;> simp only [Event.isRet] at hp <;> try exact absurd hp (by decide)
    rename_i t
    obtain ⟨hi, hc⟩ := h2 t hev
    refine ⟨?_, hi, hc⟩
    rw [h1, hc]
    rfl

/-- Witness of C1: the read pump and the heartbeat both ran `wsClose` to its end;
the channel was closed once. -/
theorem wsClose_triggers_closed_signal_once_witness :
    Reachable (stateAfter [] schedTwoCloses) ∧
      closeReturns (stateAfter [] schedTwoCloses).trace = 2 ∧
      chanCloses (stateAfter [] schedTwoCloses).trace = 1 ∧
      (stateAfter [] schedTwoCloses).conn.isClosed = true ∧
      (stateAfter [] schedTwoCloses).conn.closeChan = true :=
  ⟨⟨[], schedTwoCloses, _, rfl, rfl⟩, by decide,
    (wsClose_triggers_closed_signal_once (stateAfter [] schedTwoCloses)
      ⟨[], schedTwoCloses, _, rfl, rfl⟩).2.2.2.2.1 (by decide)⟩

/-- C2, as stated, fails: in the execution `schedTwoCloses` of the program (no
further goroutine) `wsClose` is called twice and returns twice, and the socket's
`Close()` is called twice, both times by a goroutine that does not hold the
mutex. -/
theorem socket_close_counterexample :
    (execution [] schedTwoCloses).map (fun s =>
        (closeCalls s.trace, closeReturns s.trace, socketCloses s.trace,
          s.trace.filter Event.isSockClose)) =
      some (2, 2, 2, [.sockClose 1 false, .sockClose 3 false]) := by
  rfl

/-- C2, amended: the socket's `Close()` is called once per call of `wsClose`, at
its first line and never by a goroutine that holds the mutex.  In every state the
number of socket closes is the number of returned `wsClose` calls plus the number
of goroutines inside `wsClose` past line 207, and the number of `wsClose` calls is
the number of socket closes plus the number of goroutines about to run line 207;
so when N calls were made and all have returned the socket was closed exactly N
times.  The mutex guards the test and set of `isClosed` and `close(closeChan)`:
a goroutine at one of these lines holds it. -/
theorem wsClose_closes_socket_every_call (s : System) (h : Reachable s) :
    socketCloses s.trace = closeReturns s.trace + s.threads.countP Pc.pastSocketClose ∧
    closeCalls s.trace = socketCloses s.trace + s.threads.countP Pc.atSocketClose ∧
    (closeReturns s.trace = closeCalls s.trace → socketCloses s.trace = closeCalls s.trace) ∧
    (∀ t b, Event.sockClose t b ∈ s.trace → b = false) ∧
    (∀ i k, s.threads[i]? = some (.wsClose_test k) ∨ s.threads[i]? = some (.wsClose_set k) ∨
      s.threads[i]? = some (.wsClose_close k) → s.conn.mutex = some i) := by
  obtain ⟨hm, -, h1, h2, h3⟩ := reachable_ok h
  refine ⟨h2, h1, fun heq => by omega, h3, ?_⟩
  intro i k hk
  rcases hk with hk | hk | hk
  · exact (hm.2.2 i _ hk).1
  · exact (hm.2.2 i _ hk).1
  · exact (hm.2.2 i _ hk).1

/-- Witness of the amended C2: two calls of `wsClose`, both returned, two socket
closes. -/
theorem wsClose_closes_socket_every_call_witness :
    Reachable (stateAfter [] schedTwoCloses) ∧
      closeCalls (stateAfter [] schedTwoCloses).trace = 2 ∧
      socketCloses (stateAfter [] schedTwoCloses).trace =
        closeCalls (stateAfter [] schedTwoCloses).trace :=
  ⟨⟨[], schedTwoCloses, _, rfl, rfl⟩, by decide,
    (wsClose_closes_socket_every_call (stateAfter [] schedTwoCloses)
      ⟨[], schedTwoCloses, _, rfl, rfl⟩).2.2.1 (by decide)⟩

/-- C5, as stated, fails.  In the execution `schedReorder` of the program (no
further goroutine) the heartbeat's `wsWrite` queues first and returns last: the
messages in the order their `wsWrite` calls returned `nil` are `frameA1`, then the
heartbeat message, the frames passed to `WriteMessage` are the heartbeat message,
then `frameA1`, and the second list is not a prefix of the first.  In the
execution `schedWriteBeforeReturn` the heartbeat message is passed to
`WriteMessage` while no `wsWrite` call has returned. -/
theorem wsWriteLoop_fifo_counterexample :
    (execution [] schedReorder).map (fun s => (sentMessages s.trace, writtenFrames s.trace)) =
        some ([frameA1, ⟨TextMessage, heartbeatData⟩], [⟨TextMessage, heartbeatData⟩, frameA1]) ∧
      ¬ (writtenFrames (stateAfter [] schedReorder).trace <+:
        sentMessages (stateAfter [] schedReorder).trace) ∧
      (execution [] schedWriteBeforeReturn).map
          (fun s => (sentMessages s.trace, writtenFrames s.trace)) =
        some ([], [⟨TextMessage, heartbeatData⟩]) := by
  refine ⟨rfl, ?_, rfl⟩
  have hw : writtenFrames (stateAfter [] schedReorder).trace =
      [⟨TextMessage, heartbeatData⟩, frameA1] := rfl
  have hs : sentMessages (stateAfter [] schedReorder).trace =
      [frameA1, ⟨TextMessage, heartbeatData⟩] := rfl
  rw [hw, hs]
  decide

/-- C5, amended: in every state of a connection built by `wsHandler`, the frames
passed to the socket's `WriteMessage` are a prefix of the messages that `wsWrite`
calls put on the outbound queue, in the order of their channel sends (line 198);
the rest of them is the message the write pump holds, then the outbound queue.
For every goroutine, the messages of its `wsWrite` calls that returned `nil` are,
in order, the messages it put on the queue, but for at most one call that has
queued and not returned yet. -/
theorem wsWriteLoop_fifo (s : System) (h : Reachable s) :
    writtenFrames s.trace <+: enqueuedMessages s.trace ∧
    enqueuedMessages s.trace =
      writtenFrames s.trace ++ pendingAt s.threads 2 ++ s.conn.outChan ∧
    (∀ i, sentBy i s.trace <+: enqueuedBy i s.trace ∧
      enqueuedBy i s.trace = sentBy i s.trace ++ returningAt s.threads i ∧
      (returningAt s.threads i).length ≤ 1) := by
  obtain ⟨-, -, heq⟩ := fifoOk_reachable h
  have hret := returnOk_reachable h
  refine ⟨⟨pendingAt s.threads 2 ++ s.conn.outChan, ?_⟩, heq, ?_⟩
  · rw [heq, List.append_assoc]
  · intro i
    refine ⟨⟨returningAt s.threads i, (hret i).symm⟩, hret i, ?_⟩
    simp only [returningAt]
    split
    · rename_i pc _
      cases pc <;> simp [Pc.pendingReturn]
    · simp

/-- Witness of the amended C5: in `schedReorder` the heartbeat message and then
`frameA1` were put on the queue and written in that order. -/
theorem wsWriteLoop_fifo_witness :
    Reachable (stateAfter [] schedReorder) ∧
      enqueuedMessages (stateAfter [] schedReorder).trace =
        [⟨TextMessage, heartbeatData⟩, frameA1] ∧
      writtenFrames (stateAfter [] schedReorder).trace =
        [⟨TextMessage, heartbeatData⟩, frameA1] ∧
      writtenFrames (stateAfter [] schedReorder).trace <+:
        enqueuedMessages (stateAfter [] schedReorder).trace :=
  ⟨⟨[], schedReorder, _, rfl, rfl⟩, rfl, rfl,
    (wsWriteLoop_fifo (stateAfter [] schedReorder) ⟨[], schedReorder, _, rfl, rfl⟩).1⟩

/-- C6: in every state of a connection built by `wsHandler`, thread 0 runs
`procLoop` (or has left it), and the messages it handed to `wsWrite` are, one for
one and in order, the messages it obtained from `wsRead`, with the same
`messageType` and the same payload; the only message obtained and not handed over
is the one `procLoop` is about to pass to `wsWrite`, or has put on the outbound
queue (with its `messageType` and its payload) in a `wsWrite` call that has not
returned yet. -/
theorem procLoop_echoes (s : System) (h : Reachable s) :
    (∃ pc, s.threads[0]? = some pc ∧ (pc.isProcLoop = true ∨ pc = .caller [])) ∧
    wsWriteArgs 0 s.trace <+: wsReadResults 0 s.trace ∧
    wsReadResults 0 s.trace = wsWriteArgs 0 s.trace ++ echoAt s.threads 0 ∧
    (∀ (k : Nat) (m : wsMessage), (wsWriteArgs 0 s.trace)[k]? = some m →
      ∃ m0 : wsMessage, (wsReadResults 0 s.trace)[k]? = some m0 ∧
        m.messageType = m0.messageType ∧ m.data = m0.data) ∧
    (∀ m, s.threads[0]? = some (.procLoop_wsWrite m) →
      (wsReadResults 0 s.trace).getLast? = some m) ∧
    (∀ m, s.threads[0]? = some (.procLoop_wsWrite_return m) →
      (wsReadResults 0 s.trace).getLast? = some m ∧
      (enqueuedBy 0 s.trace).getLast? = some ⟨m.messageType, m.data⟩) := by
  obtain ⟨hrole, heq⟩ := echoOk_reachable h
  have hret := returnOk_reachable h 0
  refine ⟨hrole, ⟨echoAt s.threads 0, heq.symm⟩, heq, ?_, ?_, ?_⟩
  · intro k m hk
    refine ⟨m, ?_, rfl, rfl⟩
    have hlt : k < (wsWriteArgs 0 s.trace).length := by
      rcases Nat.lt_or_ge k (wsWriteArgs 0 s.trace).length with h1 | h1
      · exact h1
      · rw [List.getElem?_eq_none h1] at hk; exact Option.noConfusion hk
    rw [heq, List.getElem?_append_left hlt]
    exact hk
  · intro m hm
    rw [heq]
    simp [echoAt, hm, Pc.pendingEcho]
  · intro m hm
    refine ⟨?_, ?_⟩
    · rw [heq]
      simp [echoAt, hm, Pc.pendingEcho]
    · rw [hret]
      simp [returningAt, hm, Pc.pendingReturn]

/-- Witness of C6, the echo scenario: the Text frame `frameA1` read from the
socket is obtained by `procLoop`, handed to `wsWrite` and written to the socket
as a Text frame with the same payload. -/
theorem procLoop_echoes_witness :
    Reachable (stateAfter [] schedEcho) ∧
      wsReadResults 0 (stateAfter [] schedEcho).trace = [frameA1] ∧
      wsWriteArgs 0 (stateAfter [] schedEcho).trace = [frameA1] ∧
      writtenFrames (stateAfter [] schedEcho).trace =
        [⟨TextMessage, [0x7b, 0x22, 0x61, 0x22, 0x3a, 0x31, 0x7d]⟩] ∧
      wsWriteArgs 0 (stateAfter [] schedEcho).trace <+:
        wsReadResults 0 (stateAfter [] schedEcho).trace :=
  ⟨⟨[], schedEcho, _, rfl, rfl⟩, by decide, by decide, by decide,
    (procLoop_echoes (stateAfter [] schedEcho) ⟨[], schedEcho, _, rfl, rfl⟩).2.1⟩

theorem reachable_stateAfter (callers : List (List Call)) (sched : List Choice) :
    Reachable (stateAfter callers sched) := by
  unfold stateAfter
  cases hex : execution callers sched with
  | none => exact ⟨[], [], _, rfl, rfl⟩
  | some s =>
    simp only [execution, wsHandler, Bool.false_eq_true, if_false, Option.some_bind] at hex
    exact ⟨callers, sched, _, rfl, hex⟩

/-- C7: in every state of a connection built by `wsHandler` the capacity of the
outbound queue is 1000 and the queue holds at most 1000 messages.  When it holds
exactly 1000 and the Closed-Signal has not fired, no case of the select of
`wsWrite` can proceed, and a goroutine at a call of `wsWrite` cannot take a step
(so it neither returns nor changes the queue).  As soon as the write pump has
taken a message from the queue the send case can proceed, and as soon as the
signal has fired the closed case can. -/
theorem outChan_bounded_and_wsWrite_blocks (s : System) (h : Reachable s) :
    s.conn.outCap = 1000 ∧ s.conn.outChan.length ≤ 1000 ∧
    (s.conn.outChan.length = 1000 → s.conn.closeChan = false →
      (∀ t d pick, wsWrite s.conn t d pick = none) ∧
      (∀ ch pc, s.threads[ch.tid]? = some pc → pc.atWsWrite = true → step s ch = none)) ∧
    (∀ pick msg c1, wsWriteLoopSelect s.conn pick = some (some msg, c1) →
      ∀ t d, wsWrite c1 t d .comm =
        some (none, { c1 with outChan := c1.outChan ++ [⟨t, d⟩] })) ∧
    (s.conn.closeChan = true →
      ∀ t d, wsWrite s.conn t d .closed = some (some errClosed, s.conn)) := by
  obtain ⟨hcap, -, hlen, -⟩ := boundsOk_reachable h
  have hblock : s.conn.outChan.length = 1000 → s.conn.closeChan = false →
      ∀ t d pick, wsWrite s.conn t d pick = none := by
    intro hfull hopen t d pick
    cases pick <;> simp [wsWrite, hcap, hfull, hopen]
  refine ⟨hcap, hcap ▸ hlen, ?_, ?_, ?_⟩
  · intro hfull hopen
    refine ⟨hblock hfull hopen, ?_⟩
    intro ch pc hpc hat
    have hex : exec s.conn ch.tid ch pc = none := by
      cases pc <;> simp only [Pc.atWsWrite] at hat <;>
        (try exact absurd hat (by decide))
      case procLoop_wsWrite m => simp only [exec, hblock hfull hopen]
      case heartbeat_wsWrite => simp only [exec, hblock hfull hopen]
      case caller k =>
        rcases k with _ | ⟨call, k⟩
        · exact absurd hat (by simp [Pc.atWsWrite])
        · cases call
          · exact absurd hat (by simp [Pc.atWsWrite])
          · simp only [exec, hblock hfull hopen]
          · exact absurd hat (by simp [Pc.atWsWrite])
    unfold step
    split
    · rfl
    · simp only [hpc, hex]
  · intro pick msg c1 hsel t d
    rcases wsWriteLoopSelect_eq_some hsel with ⟨-, m, rest, hq, -, rfl⟩ | ⟨-, -, hr, -⟩
    · have : rest.length < s.conn.outCap := by
        have := hlen
        rw [hq] at this
        simp only [List.length_cons] at this
        omega
      simp [wsWrite, this]
    · exact Option.noConfusion hr
  · intro hclosed t d
    simp [wsWrite, hclosed]

set_option maxRecDepth 100000 in
/-- Witness of C7: after a thousand `wsWrite` calls with the write pump stalled
the queue is full, the signal has not fired, and a further `wsWrite` blocks. -/
theorem outChan_bounded_and_wsWrite_blocks_witness :
    Reachable (stateAfter [fillQueue] schedFill) ∧
      (stateAfter [fillQueue] schedFill).conn.outChan.length = 1000 ∧
      (stateAfter [fillQueue] schedFill).conn.closeChan = false ∧
      ∀ pick, wsWrite (stateAfter [fillQueue] schedFill).conn TextMessage heartbeatData pick =
        none :=
  have hfull : (stateAfter [fillQueue] schedFill).conn.outChan.length = 1000 := by decide
  have hopen : (stateAfter [fillQueue] schedFill).conn.closeChan = false := by decide
  ⟨reachable_stateAfter [fillQueue] schedFill, hfull, hopen,
    fun pick =>
      ((outChan_bounded_and_wsWrite_blocks (stateAfter [fillQueue] schedFill)
        (reachable_stateAfter [fillQueue] schedFill)).2.2.1 hfull hopen).1
          TextMessage heartbeatData pick⟩

/-- C9, as stated, fails: the heartbeat queued its message, the read pump then ran
`wsClose` to its end, and after that the write pump took the message from
`outChan` and passed it to `WriteMessage` (the last `sockWrite` of the trace comes
after `ret_wsClose 1`). -/
theorem wsWriteLoop_after_close_counterexample :
    (execution [] schedWriteAfterClose).map (fun s => s.trace) =
      some [.enqueued 3 ⟨TextMessage, heartbeatData⟩, .sendOk 3 ⟨TextMessage, heartbeatData⟩,
        .sockRead 1 none, .call_wsClose 1,
        .sockClose 1 false, .lock 1, .chanClose 1, .unlock 1, .ret_wsClose 1,
        .sockWrite 2 ⟨TextMessage, heartbeatData⟩ false, .call_wsClose 2] := by
  rfl

/-- C9, amended: once the Closed-Signal has fired, the select of `wsWriteLoop`
does not block (the closed case leaves the loop, and the goroutine then takes no
further step); an iteration either leaves the loop with the connection unchanged
or, only when the outbound queue holds a message, takes the head of the queue,
which is then passed to `WriteMessage`; when the outbound queue is empty it
leaves the loop. -/
theorem wsWriteLoop_after_close (c : wsConnection) (t : Nat) (hclosed : c.closeChan = true) :
    (∀ ch, ch.pick = .closed →
      exec c t ch .wsWriteLoop_select = some ⟨c, .caller [], [], [], false⟩) ∧
    (∀ ch, exec c t ch (.caller []) = none) ∧
    (∀ ch e, exec c t ch .wsWriteLoop_select = some e →
      e.events = [] ∧
      ((e.pc = .caller [] ∧ e.conn = c) ∨
        (∃ msg rest, c.outChan = msg :: rest ∧ e.pc = .wsWriteLoop_write msg ∧
          e.conn = { c with outChan := rest }))) ∧
    (c.outChan = [] →
      ∀ ch e, exec c t ch .wsWriteLoop_select = some e → e.pc = .caller [] ∧ e.conn = c) := by
  have hcases : ∀ ch e, exec c t ch .wsWriteLoop_select = some e →
      e.events = [] ∧
      ((e.pc = .caller [] ∧ e.conn = c) ∨
        (∃ msg rest, c.outChan = msg :: rest ∧ e.pc = .wsWriteLoop_write msg ∧
          e.conn = { c with outChan := rest })) := by
    intro ch e h
    simp only [exec] at h
    split at h
    · exact Option.noConfusion h
    · rename_i heq
      simp only [Option.some.injEq] at h; subst h
      rcases wsWriteLoopSelect_eq_some heq with ⟨-, m, rest, hq, hr, rfl⟩ | ⟨-, -, hr, -⟩
      · simp only [Option.some.injEq] at hr
        subst hr
        exact ⟨rfl, Or.inr ⟨_, rest, hq, rfl, rfl⟩⟩
      · exact Option.noConfusion hr
    · rename_i heq
      simp only [Option.some.injEq] at h; subst h
      rcases wsWriteLoopSelect_eq_some heq with ⟨-, m, rest, hq, hr, rfl⟩ | ⟨-, -, -, rfl⟩
      · exact Option.noConfusion hr
      · exact ⟨rfl, Or.inl ⟨rfl, rfl⟩⟩
  refine ⟨?_, fun ch => rfl, hcases, ?_⟩
  · intro ch hpick
    simp [exec, wsWriteLoopSelect, hpick, hclosed]
  · intro hempty ch e h
    rcases (hcases ch e h).2 with h1 | ⟨msg, rest, hq, -, -⟩
    · exact h1
    · rw [hempty] at hq
      exact absurd hq (by simp)

/-- Witness of the amended C9 on the connection the read pump has closed, whose
outbound queue is empty: the write pump leaves the loop. -/
theorem wsWriteLoop_after_close_witness :
    (stateAfter [] schedCloseThenHeartbeat).conn.closeChan = true ∧
      exec (stateAfter [] schedCloseThenHeartbeat).conn 2 (goClosed 2) .wsWriteLoop_select =
        some ⟨(stateAfter [] schedCloseThenHeartbeat).conn, .caller [], [], [], false⟩ :=
  ⟨by decide,
    (wsWriteLoop_after_close (stateAfter [] schedCloseThenHeartbeat).conn 2 (by decide)).1
      (goClosed 2) rfl⟩

theorem wsHandler1Loop_replies (p : Peer) :
    ∀ fuel n tr, wsHandler1Loop p fuel n = some tr →
      replies tr = (framesRead tr).map (fun f => (TextMessage, f.2)) := by
  intro fuel
  induction fuel with
  | zero =>
    intro n tr h
    exact Option.noConfusion h
  | succ fuel ih =>
    intro n tr h
    simp only [wsHandler1Loop] at h
    split at h
    · simp only [Option.some.injEq] at h
      subst h
      rfl
    · split at h
      · simp only [Option.map_eq_some'] at h
        obtain ⟨tr1, h1, rfl⟩ := h
        have := ih _ _ h1
        simp only [replies, framesRead] at this
        simp [replies, framesRead, Call1.reply, Call1.frameRead, this]
      · simp only [Option.some.injEq] at h
        subst h
        rfl

theorem wsHandler1Loop_stops (p : Peer) :
    ∀ k n fuel, (∀ j, j < k → (p.reads (n + j)).isSome = true ∧ p.writeOk (n + j) = true) →
      (p.reads (n + k) = none ∨ p.writeOk (n + k) = false) → k < fuel →
      wsHandler1Loop p fuel n = some (echoRounds p (k + 1) n) := by
  intro k
  induction k with
  | zero =>
    intro n fuel _ herr hfuel
    obtain ⟨fuel, rfl⟩ : ∃ f, fuel = f + 1 := ⟨fuel - 1, by omega⟩
    simp only [Nat.add_zero] at herr
    simp only [wsHandler1Loop, echoRounds, echoRound, List.append_nil]
    rcases hr : p.reads n with _ | ⟨messageType, data⟩
    · rfl
    · rcases herr with herr | herr
      · rw [hr] at herr
        exact Option.noConfusion herr
      · simp [herr]
  | succ k ih =>
    intro n fuel hok herr hfuel
    obtain ⟨fuel, rfl⟩ : ∃ f, fuel = f + 1 := ⟨fuel - 1, by omega⟩
    have h0 := hok 0 (by omega)
    simp only [Nat.add_zero] at h0
    have hrest := ih (n + 1) fuel
      (fun j hj => by
        have := hok (j + 1) (by omega)
        rwa [show n + (j + 1) = n + 1 + j by omega] at this)
      (by rwa [show n + (k + 1) = n + 1 + k by omega] at herr)
      (by omega)
    rw [echoRounds]
    simp only [wsHandler1Loop, echoRound]
    rcases hr : p.reads n with _ | ⟨messageType, data⟩
    · rw [hr] at h0
      exact absurd h0.1 (by simp)
    · simp [h0.2, hrest]

/-- C10: in every run of `wsHandler1` that ends, the replies written are, one for
one and in order, the frames read successfully, each with the payload that was
read and the Text opcode, whatever opcode was read.  When the first failing read
or write is the one of iteration `k`, the handler ends (given more than `k`
iterations of fuel) after exactly the iterations `0..k`, then closes the socket
and calls `Upgrade` once more. -/
theorem wsHandler1_replies_text (p : Peer) :
    (∀ fuel tr, wsHandler1 p fuel = some tr →
      replies tr = (framesRead tr).map (fun f => (TextMessage, f.2))) ∧
    (∀ k fuel, p.upgradeFails = false →
      (∀ j, j < k → (p.reads j).isSome = true ∧ p.writeOk j = true) →
      (p.reads k = none ∨ p.writeOk k = false) → k < fuel →
      wsHandler1 p fuel = some ([.upgrade] ++ echoRounds p (k + 1) 0 ++ [.close, .upgrade])) := by
  refine ⟨?_, ?_⟩
  · intro fuel tr h
    simp only [wsHandler1] at h
    split at h
    · simp only [Option.some.injEq] at h
      subst h
      rfl
    · simp only [Option.map_eq_some'] at h
      obtain ⟨tr1, h1, rfl⟩ := h
      have := wsHandler1Loop_replies p _ _ _ h1
      simp only [replies, framesRead] at this
      simp [replies, framesRead, Call1.reply, Call1.frameRead, this]
  · intro k fuel hup hok herr hfuel
    have := wsHandler1Loop_stops p k 0 fuel (by simpa using hok) (by simpa using herr) hfuel
    simp [wsHandler1, hup, this]

/-- Witness of C10: a Binary frame with payload 1, 2, 3 is answered by a Text
frame with the same payload; the next read fails, and the handler closes the
socket. -/
theorem wsHandler1_replies_text_witness :
    wsHandler1 binaryPeer 2 =
      some [.upgrade, .readMessage (some (BinaryMessage, [1, 2, 3])),
        .writeMessage TextMessage [1, 2, 3] true, .readMessage none, .close, .upgrade] :=
  (wsHandler1_replies_text binaryPeer).2 1 2 rfl
    (fun j hj => by
      have hj0 : j = 0 := by omega
      subst hj0
      exact ⟨rfl, rfl⟩)
    (Or.inl rfl) (by decide)

end Barrage
